import Mathlib

/-!
# SchoolSync — a verification development

Shallow embedding of the SchoolSync browser extension's core pipeline
(CSV tokenizer and export parser, roster parser, record differ and
SHA-256 hasher, batched synchronizer, profile crawler/scraper, and the
session-token storage layer), together with theorems checking the
design document's claims against the embedded code.

Conventions used throughout the embedding:

* JavaScript strings are Lean `String`s; a JS value that may be
  `undefined`/`null` is an `Option`.  JS truthiness on strings
  (`"" `is falsy) is `jsTruthyO`.
* A JS plain object used as a string-keyed dictionary is an
  association list `List (String × String)` with insert-or-replace
  (`jsSet`) and first-match lookup (`jsGet`), mirroring JS property
  update (an existing key keeps its position) and property read.
* Machine integers are `Nat` with explicit reduction `% 2^32` (`w32`)
  where 32-bit overflow matters (the SHA-256 compression function).
* The DOM is out of scope of the core (the design treats the document
  tree as an external collaborator): document-shaped inputs are
  embedded as the streams of texts/attributes the relevant source
  functions read from them, in document order.
-/

set_option maxRecDepth 100000

namespace SchoolSync

/-! ## JavaScript string primitives -/

/-- ECMAScript WhiteSpace/LineTerminator characters (the set stripped by
`String.prototype.trim` and matched by `\s`), restricted to the code
points that can occur in our inputs.  Note U+FEFF (the byte-order mark)
is ECMAScript whitespace, so JS `trim()` removes a leading BOM. -/
def jsWhitespace (c : Char) : Bool :=
  c = ' ' ∨ c = '\t' ∨ c = '\n' ∨ c = '\r' ∨ c = '\x0b' ∨ c = '\x0c' ∨
  c = '\u00A0' ∨ c = '\u2028' ∨ c = '\u2029' ∨ c = '\uFEFF'

/-- JS `String.prototype.trim`. -/
def jsTrim (s : String) : String :=
  String.mk (((s.data.dropWhile jsWhitespace).reverse.dropWhile jsWhitespace).reverse)

/-- ASCII lowercasing of one character (all strings the code lowercases are
ASCII labels/headers, where JS `toLowerCase` agrees with ASCII lowering). -/
def asciiLower (c : Char) : Char :=
  if 'A' ≤ c ∧ c ≤ 'Z' then Char.ofNat (c.toNat + 32) else c

/-- JS `String.prototype.toLowerCase` on ASCII data. -/
def jsLower (s : String) : String := String.mk (s.data.map asciiLower)

/-- JS string truthiness of a possibly-`undefined` string: `undefined` and
`""` are falsy. -/
def jsTruthyO (o : Option String) : Bool := o.getD "" ≠ ""

/-- Decimal digit character. -/
def digitChar (n : Nat) : Char := Char.ofNat (48 + n)

/-- Decimal digits of `n`, most significant first; structural recursion on a
fuel bound (any `fuel > n` is sufficient, since `n` has at most `n + 1`
digits and the argument shrinks by a factor of ten each step). -/
def jsNumStrGo : Nat → Nat → List Char
  | 0, _ => []
  | fuel + 1, n =>
    if n < 10 then [digitChar n]
    else jsNumStrGo fuel (n / 10) ++ [digitChar (n % 10)]

/-- Decimal rendering of a number, as JS template interpolation prints a
non-negative integer. -/
def jsNumStr (n : Nat) : String := String.mk (jsNumStrGo (n + 1) n)

/-- JS `Object` used as a string dictionary: property read (keys are
unique in a JS object, so first-match lookup). -/
def jsGet (m : List (String × String)) (k : String) : Option String :=
  match m with
  | [] => none
  | p :: rest => if p.1 = k then some p.2 else jsGet rest k

/-- JS `Object` used as a string dictionary: `m[k] = v`.  An existing key
keeps its position and gets the new value; a new key is appended. -/
def jsSet (m : List (String × String)) (k v : String) : List (String × String) :=
  match m with
  | [] => [(k, v)]
  | p :: rest => if p.1 = k then (k, v) :: rest else p :: jsSet rest k v

/-! ## SHA-256 (FIPS 180-4), executable on `Nat` bytes -/

/-- Reduce to a 32-bit word. -/
def w32 (x : Nat) : Nat := x % 4294967296

/-- Right rotation of a 32-bit word. -/
def rotr (n x : Nat) : Nat := w32 ((x >>> n) ||| (x <<< (32 - n)))

/-- SHA-256 round constants (FIPS 180-4 section 4.2.2). -/
def shaK : List Nat :=
  [1116352408, 1899447441, 3049323471, 3921009573, 961987163, 1508970993,
   2453635748, 2870763221, 3624381080, 310598401, 607225278, 1426881987,
   1925078388, 2162078206, 2614888103, 3248222580, 3835390401, 4022224774,
   264347078, 604807628, 770255983, 1249150122, 1555081692, 1996064986,
   2554220882, 2821834349, 2952996808, 3210313671, 3336571891, 3584528711,
   113926993, 338241895, 666307205, 773529912, 1294757372, 1396182291,
   1695183700, 1986661051, 2177026350, 2456956037, 2730485921, 2820302411,
   3259730800, 3345764771, 3516065817, 3600352804, 4094571909, 275423344,
   430227734, 506948616, 659060556, 883997877, 958139571, 1322822218,
   1537002063, 1747873779, 1955562222, 2024104815, 2227730452, 2361852424,
   2428436474, 2756734187, 3204031479, 3329325298]

/-- Pad a byte message to a multiple of 64 bytes (FIPS 180-4 section 5.1.1):
append 0x80, zeros, and the 64-bit big-endian bit length. -/
def shaPad (msg : List Nat) : List Nat :=
  let bitLen := 8 * msg.length
  let zeros := (64 - ((msg.length + 9) % 64)) % 64
  msg ++ [0x80] ++ List.replicate zeros 0 ++
    [(bitLen >>> 56) % 256, (bitLen >>> 48) % 256, (bitLen >>> 40) % 256, (bitLen >>> 32) % 256,
     (bitLen >>> 24) % 256, (bitLen >>> 16) % 256, (bitLen >>> 8) % 256, bitLen % 256]

/-- Chunk splitter on a fuel bound (any `fuel ≥ l.length` is sufficient for
`n > 0`, since each step consumes at least one element). -/
def chunksOfGo (n : Nat) : Nat → List α → List (List α)
  | _, [] => []
  | 0, _ :: _ => []
  | fuel + 1, x :: xs =>
    if n = 0 then [] else List.take n (x :: xs) :: chunksOfGo n fuel (List.drop n (x :: xs))

/-- Split a list into consecutive chunks of `n` elements (last chunk
possibly shorter); empty output for `n = 0` or an empty list. -/
def chunksOf (n : Nat) (l : List α) : List (List α) := chunksOfGo n l.length l

/-- Big-endian 32-bit words of a byte list (4 bytes per word). -/
def toWords : List Nat → List Nat
  | a :: b :: c :: d :: rest => (((a * 256 + b) * 256 + c) * 256 + d) :: toWords rest
  | _ => []

/-- Message-schedule extension: append `i` further words. -/
def extendWords (ws : List Nat) : Nat → List Nat
  | 0 => ws
  | i + 1 =>
    let n := ws.length
    let g (k : Nat) : Nat := ws.getD (n - k) 0
    let s0 := (rotr 7 (g 15)) ^^^ (rotr 18 (g 15)) ^^^ ((g 15) >>> 3)
    let s1 := (rotr 17 (g 2)) ^^^ (rotr 19 (g 2)) ^^^ ((g 2) >>> 10)
    extendWords (ws ++ [w32 (g 16 + s0 + g 7 + s1)]) i

/-- The eight 32-bit working variables of the SHA-256 compression. -/
structure Sha8 where
  a : Nat
  b : Nat
  c : Nat
  d : Nat
  e : Nat
  f : Nat
  g : Nat
  h : Nat

/-- Initial hash value (FIPS 180-4 section 5.3.3). -/
def shaH0 : Sha8 :=
  ⟨1779033703, 3144134277, 1013904242, 2773480762, 1359893119, 2600822924, 528734635, 1541459225⟩

/-- One round of the SHA-256 compression function. -/
def shaRound (st : Sha8) (kw : Nat × Nat) : Sha8 :=
  let s1 := (rotr 6 st.e) ^^^ (rotr 11 st.e) ^^^ (rotr 25 st.e)
  let ch := (st.e &&& st.f) ^^^ ((w32 (4294967295 - st.e)) &&& st.g)
  let t1 := w32 (st.h + s1 + ch + kw.1 + kw.2)
  let s0 := (rotr 2 st.a) ^^^ (rotr 13 st.a) ^^^ (rotr 22 st.a)
  let mj := (st.a &&& st.b) ^^^ (st.a &&& st.c) ^^^ (st.b &&& st.c)
  let t2 := w32 (s0 + mj)
  ⟨w32 (t1 + t2), st.a, st.b, st.c, w32 (st.d + t1), st.e, st.f, st.g⟩

/-- Compress one 64-byte block into the hash state. -/
def shaBlock (H : Sha8) (block : List Nat) : Sha8 :=
  let ws := extendWords (toWords block) 48
  let st := (shaK.zip ws).foldl shaRound H
  ⟨w32 (H.a + st.a), w32 (H.b + st.b), w32 (H.c + st.c), w32 (H.d + st.d),
   w32 (H.e + st.e), w32 (H.f + st.f), w32 (H.g + st.g), w32 (H.h + st.h)⟩

/-- Big-endian bytes of one 32-bit word. -/
def wordBytes (w : Nat) : List Nat :=
  [(w >>> 24) % 256, (w >>> 16) % 256, (w >>> 8) % 256, w % 256]

/-- SHA-256 digest of a byte list, as its 32 digest bytes. -/
def sha256 (msg : List Nat) : List Nat :=
  let F := (chunksOf 64 (shaPad msg)).foldl shaBlock shaH0
  [F.a, F.b, F.c, F.d, F.e, F.f, F.g, F.h].flatMap wordBytes

/-- Lowercase hexadecimal digit. -/
def hexDigit (n : Nat) : Char := if n < 10 then Char.ofNat (48 + n) else Char.ofNat (87 + n)

/-- Lowercase hex rendering of a byte list (two digits per byte), as the
code's `b.toString(16).padStart(2, '0')` join produces for bytes. -/
def hexOfBytes (bs : List Nat) : String :=
  String.mk (bs.flatMap (fun b => [hexDigit (b / 16), hexDigit (b % 16)]))

/-- UTF-8 encoding of a string (what `TextEncoder` feeds to the digest). -/
def utf8Encode (s : String) : List Nat :=
  s.data.flatMap (fun c =>
    let n := c.toNat
    if n < 0x80 then [n]
    else if n < 0x800 then [0xc0 ||| (n >>> 6), 0x80 ||| (n &&& 0x3f)]
    else if n < 0x10000 then
      [0xe0 ||| (n >>> 12), 0x80 ||| ((n >>> 6) &&& 0x3f), 0x80 ||| (n &&& 0x3f)]
    else
      [0xf0 ||| (n >>> 18), 0x80 ||| ((n >>> 12) &&& 0x3f), 0x80 ||| ((n >>> 6) &&& 0x3f),
       0x80 ||| (n &&& 0x3f)])

/-- Hex SHA-256 of a string's UTF-8 bytes. -/
def sha256hex (s : String) : String := hexOfBytes (sha256 (utf8Encode s))

/-- Sanity check of the SHA-256 embedding against a FIPS test vector. -/
theorem sha256hex_abc :
    sha256hex "abc" = "ba7816bf8f01cfea414140de5dae2223b00361a396177a9cb410ff61f20015ad" := by
  decide

/-- Sanity check of the SHA-256 embedding on the empty message. -/
theorem sha256hex_empty :
    sha256hex "" = "e3b0c44298fc1c149afbf4c8996fb92427ae41e4649b934ca495991b7852b855" := by
  decide

/-! ## Canonical student records and the differ
(src/lib/capsule-client.js typedef, and the hasher `hashStudent` /
`diffStudents`; the service worker's `diffStudentsInWorker` inlines the
same hash-then-compare loop and is covered by the same embedding). -/

/-- The `StudentRecord` shape of `capsule-client.js`.  Each field is an
`Option` because a JS object property may be absent (`undefined`), which
`JSON.stringify` and truthiness treat differently from `""` only for the
three fields serialized without a `|| ''` default. -/
structure StudentRecord where
  sourcedId : Option String := none
  firstName : Option String := none
  lastName : Option String := none
  gradeLevel : Option String := none
  homeRoom : Option String := none
  enrollStatus : Option String := none
  email : Option String := none
  schoolId : Option String := none
  dob : Option String := none
  gender : Option String := none
  extra : List (String × String) := []
deriving DecidableEq, Repr

/-- JSON string escaping as `JSON.stringify` performs it on the characters
that can appear here (quote, backslash, named control escapes, `\u00XX`
for other control characters). -/
def jsonEscapeChar (c : Char) : List Char :=
  if c = '"' then ['\\', '"']
  else if c = '\\' then ['\\', '\\']
  else if c = '\x08' then ['\\', 'b']
  else if c = '\t' then ['\\', 't']
  else if c = '\n' then ['\\', 'n']
  else if c = '\x0c' then ['\\', 'f']
  else if c = '\r' then ['\\', 'r']
  else if c.toNat < 0x20 then ['\\', 'u', '0', '0', hexDigit (c.toNat / 16), hexDigit (c.toNat % 16)]
  else [c]

/-- A JSON string literal. -/
def jsonStr (s : String) : String :=
  "\"" ++ String.mk (s.data.flatMap jsonEscapeChar) ++ "\""

/-- The fixed serialization hashed by `hashStudent`: `JSON.stringify` of the
object literal `{id, fn, ln, gr, hr, es, em, si}` in that key order.
`JSON.stringify` drops a key whose value is `undefined`, which can happen
for `id`/`fn`/`ln`; the five remaining fields are defaulted with `|| ''`
in the source and therefore always present. -/
def serializeStudent (s : StudentRecord) : String :=
  let opt (k : String) (v : Option String) : List String :=
    match v with
    | none => []
    | some x => [jsonStr k ++ ":" ++ jsonStr x]
  let req (k : String) (v : Option String) : List String :=
    [jsonStr k ++ ":" ++ jsonStr (v.getD "")]
  "\x7b" ++
    String.intercalate ","
      (opt "id" s.sourcedId ++ opt "fn" s.firstName ++ opt "ln" s.lastName ++
       req "gr" s.gradeLevel ++ req "hr" s.homeRoom ++ req "es" s.enrollStatus ++
       req "em" s.email ++ req "si" s.schoolId) ++
  "\x7d"

/-- Embeds `hashStudent`: hex SHA-256 of the canonical serialization. -/
def hashStudent (s : StudentRecord) : String := sha256hex (serializeStudent s)

/-- The string a record's `sourcedId` supplies when used as a JS object
key (`undefined` is coerced to the property name `"undefined"`). -/
def jsKey (o : Option String) : String := o.getD "undefined"

/-- Embeds the loop body sequence of `diffStudents`: walk the records
accumulating the `changed` list and the `newHashes` dictionary; a record
is pushed onto `changed` when the prior index holds no identical hash
under its id (`existingHashes[student.sourcedId] !== hash`). -/
def diffGo (existing : List (String × String)) :
    List StudentRecord → List StudentRecord → List (String × String) →
      List StudentRecord × List (String × String)
  | [], changed, nh => (changed, nh)
  | s :: rest, changed, nh =>
    let h := hashStudent s
    let nh2 := jsSet nh (jsKey s.sourcedId) h
    if jsGet existing (jsKey s.sourcedId) = some h then diffGo existing rest changed nh2
    else diffGo existing rest (changed ++ [s]) nh2

/-- Embeds `diffStudents` (and the service worker's
`diffStudentsInWorker`): returns the changed records and the full
replacement hash index. -/
def diffStudents (students : List StudentRecord) (existingHashes : List (String × String)) :
    List StudentRecord × List (String × String) :=
  diffGo existingHashes students [] []

/-! ## The CSV tokenizer and PowerSchool export parser
(content-script CSV module: `parseCSV`, `mapCSVHeaders`,
`parseExportCSV`).  The tokenizer's scratch buffer `parseCSV._rows` is
reset to `undefined` at the end of every call, so it is equivalent to the
local `rows` accumulator modeled here. -/

/-- Tokenizer state of `parseCSV`: emitted rows, fields of the row being
built (`lines` in the source), the characters of the field being built
(`current`), and the in-quotes flag. -/
structure CSVState where
  rows : List (List String)
  lines : List String
  current : List Char
  inQuotes : Bool
deriving DecidableEq, Repr

/-- Append one character to the field being built. -/
def csvAddC (st : CSVState) (c : Char) : CSVState :=
  { st with current := st.current ++ [c] }

/-- Field boundary: push the current field onto the row being built. -/
def csvPushField (st : CSVState) : CSVState :=
  { st with lines := st.lines ++ [String.mk st.current], current := [] }

/-- Row boundary (also run once at end of input): if anything is pending
(`current || lines.length > 0` in the source), close the current field
and emit the row. -/
def csvFlushRow (st : CSVState) : CSVState :=
  if st.current ≠ [] ∨ st.lines ≠ [] then
    { st with rows := st.rows ++ [st.lines ++ [String.mk st.current]], lines := [], current := [] }
  else st

/-- Embeds the character loop of `parseCSV`, one branch per arm of the
source's `if`-chain: a quote toggles/escapes, an unquoted comma ends a
field, an unquoted newline ends a row (`\r` skipping a following `\n`),
and every other character is accumulated. -/
def scanCSV (st : CSVState) : List Char → CSVState
  | [] => st
  | '"' :: '"' :: rest2 =>
    if st.inQuotes then scanCSV (csvAddC st '"') rest2
    else scanCSV { st with inQuotes := true } ('"' :: rest2)
  | '"' :: rest =>
    if st.inQuotes then scanCSV { st with inQuotes := false } rest
    else scanCSV { st with inQuotes := true } rest
  | '\r' :: '\n' :: rest2 =>
    if st.inQuotes then scanCSV (csvAddC st '\r') ('\n' :: rest2)
    else scanCSV (csvFlushRow st) rest2
  | c :: rest =>
    if c = ',' ∧ st.inQuotes = false then scanCSV (csvPushField st) rest
    else if (c = '\n' ∨ c = '\r') ∧ st.inQuotes = false then scanCSV (csvFlushRow st) rest
    else scanCSV (csvAddC st c) rest

/-- All rows produced by tokenizing a CSV text (including the final
pending row, mirroring the post-loop flush in the source). -/
def parseCSVRows (csv : String) : List (List String) :=
  (csvFlushRow (scanCSV ⟨[], [], [], false⟩ csv.data)).rows

/-- Result shape of `parseCSV`. -/
structure CSVOut where
  headers : List String
  rows : List (List String)
deriving DecidableEq, Repr

/-- Embeds `parseCSV`: tokenize, then split off the first row as the
trimmed header row. -/
def parseCSV (csv : String) : CSVOut :=
  match parseCSVRows csv with
  | [] => ⟨[], []⟩
  | h :: t => ⟨h.map jsTrim, t⟩

/-- The canonical fields a CSV column can map to. -/
inductive CField where
  | sourcedId | firstName | lastName | gradeLevel | homeRoom
  | enrollStatus | email | schoolId | dob | gender
deriving DecidableEq, Repr

/-- The `CSV_COLUMN_MAP` lookup table, in source order. -/
def csvColumnMap : List (String × CField) :=
  [("student_number", .sourcedId), ("studentnumber", .sourcedId), ("student number", .sourcedId),
   ("id", .sourcedId), ("student_id", .sourcedId), ("dcid", .sourcedId),
   ("last_name", .lastName), ("lastname", .lastName), ("last name", .lastName), ("last", .lastName),
   ("first_name", .firstName), ("firstname", .firstName), ("first name", .firstName),
   ("first", .firstName),
   ("grade_level", .gradeLevel), ("gradelevel", .gradeLevel), ("grade level", .gradeLevel),
   ("grade", .gradeLevel), ("gr", .gradeLevel),
   ("home_room", .homeRoom), ("homeroom", .homeRoom), ("home room", .homeRoom), ("hr", .homeRoom),
   ("section", .homeRoom),
   ("enroll_status", .enrollStatus), ("enrollstatus", .enrollStatus),
   ("enrollment_status", .enrollStatus), ("status", .enrollStatus),
   ("student_email", .email), ("email", .email), ("email_addr", .email),
   ("schoolid", .schoolId), ("school_id", .schoolId), ("school", .schoolId),
   ("dob", .dob), ("date_of_birth", .dob), ("dateofbirth", .dob),
   ("gender", .gender), ("sex", .gender)]

/-- Embeds `mapCSVHeaders`: for each header position, normalize
(`toLowerCase().trim()`) and look the header up in the fixed table;
the result is the column-to-field assignment, in ascending column order
(= `Object.entries` order for integer-like keys). -/
def mapCSVHeaders (headers : List String) : List (Nat × CField) :=
  headers.enum.filterMap (fun p =>
    ((csvColumnMap.find? (fun e => e.1 = jsTrim (jsLower p.2))).map (fun e => (p.1, e.2))))

/-- Record update for one mapped CSV column. -/
def setCF (f : CField) (v : String) (r : StudentRecord) : StudentRecord :=
  match f with
  | .sourcedId => { r with sourcedId := some v }
  | .firstName => { r with firstName := some v }
  | .lastName => { r with lastName := some v }
  | .gradeLevel => { r with gradeLevel := some v }
  | .homeRoom => { r with homeRoom := some v }
  | .enrollStatus => { r with enrollStatus := some v }
  | .email => { r with email := some v }
  | .schoolId => { r with schoolId := some v }
  | .dob => { r with dob := some v }
  | .gender => { r with gender := some v }

/-- The identity fallback of `parseExportCSV` (lines 163–167 of the CSV
module): when no id was extracted, synthesize
`ps_<lastName.toLowerCase()>_<firstName.toLowerCase()>` — note the
source includes no row index here. -/
def withCsvFallbackId (r : StudentRecord) : StudentRecord :=
  if jsTruthyO r.sourcedId then r
  else
    let id := "ps_" ++ jsLower (r.lastName.getD "") ++ "_" ++ jsLower (r.firstName.getD "")
    { r with sourcedId := some id }

/-- Builds one record from a CSV data row: mapped columns first (trimmed,
empty values skipped, later columns overwrite), then unmapped nonblank
columns into `extra` keyed by the (already trimmed) header text. -/
def csvRowRecord (headers : List String) (mapping : List (Nat × CField)) (row : List String) :
    StudentRecord :=
  let r1 := mapping.foldl
    (fun r p =>
      let val := jsTrim (row.getD p.1 "")
      if val ≠ "" then setCF p.2 val r else r)
    ({} : StudentRecord)
  headers.enum.foldl
    (fun r p =>
      if (mapping.find? (fun e => e.1 = p.1)).isSome = false ∧ row.getD p.1 "" ≠ "" ∧
          jsTrim (row.getD p.1 "") ≠ "" then
        { r with extra := jsSet r.extra p.2 (jsTrim (row.getD p.1 "")) }
      else r)
    r1

/-- The byte-order-mark strip attempted by `parseExportCSV`:
`csvText.replace(/^\xEF\xBB\xBF/, '')` removes the three-character
sequence U+00EF U+00BB U+00BF (the Latin-1 reading of the UTF-8 BOM
bytes) — not the single code point U+FEFF a decoded text carries. -/
def stripBOMRegex (s : String) : String :=
  match s.data with
  | '\u00EF' :: '\u00BB' :: '\u00BF' :: rest => String.mk rest
  | _ => s

/-- Embeds `parseExportCSV`: strip (the mojibake form of) the BOM,
tokenize, map headers, then build a record from every non-blank data row,
keeping rows that produced a name and applying the id fallback. -/
def parseExportCSV (csvText : String) : List StudentRecord :=
  let out := parseCSV (stripBOMRegex csvText)
  if out.headers.length = 0 ∨ out.rows.length = 0 then []
  else
    let mapping := mapCSVHeaders out.headers
    if mapping.length = 0 then []
    else
      out.rows.foldl
        (fun students row =>
          if row.length = 0 ∨ row.all (fun c => jsTrim c = "") then students
          else
            let rec1 := csvRowRecord out.headers mapping row
            if jsTruthyO rec1.firstName ∨ jsTruthyO rec1.lastName then
              students ++ [withCsvFallbackId rec1]
            else students)
        []

/-! ## A small matcher for the code's anchored label regexes

All label/header regexes in the sources are anchored alternations of
literals joined by the one-optional-character wildcard `.?` and optional
groups, tested case-insensitively.  `Pat` hand-compiles exactly that
fragment; `patMatch p cs` returns the possible remainders after matching
a prefix, and `fullMatch` asks for a complete case-insensitive match,
which is what `pattern.test(text)` decides for an `^...$`-anchored
regex. -/

inductive Pat where
  | lit : String → Pat
  | anyOpt : Pat
  | seq : Pat → Pat → Pat
  | alt : Pat → Pat → Pat
  | opt : Pat → Pat
deriving Repr

/-- Remainders of the input after matching a prefix against a pattern. -/
def patMatch : Pat → List Char → List (List Char)
  | .lit s, cs => if s.data.isPrefixOf cs then [cs.drop s.data.length] else []
  | .anyOpt, cs =>
    cs :: (match cs with
           | _ :: rest => [rest]
           | [] => [])
  | .seq p q, cs => (patMatch p cs).flatMap (patMatch q)
  | .alt p q, cs => patMatch p cs ++ patMatch q cs
  | .opt p, cs => cs :: patMatch p cs

/-- Case-insensitive anchored match (`/^...$/i.test`). -/
def fullMatch (p : Pat) (s : String) : Bool :=
  (patMatch p (jsLower s).data).any (fun r => r = [])

/-- Right-nested alternation of a pattern list. -/
def palt : List Pat → Pat
  | [] => .lit "\x00"
  | [p] => p
  | p :: ps => .alt p (palt ps)

/-- Right-nested sequence of a pattern list. -/
def pseq : List Pat → Pat
  | [] => .lit ""
  | [p] => p
  | p :: ps => .seq p (pseq ps)

/-- Does the haystack contain the needle as a contiguous sublist? -/
def listHasSub (needle : List Char) : List Char → Bool
  | [] => needle.isPrefixOf []
  | c :: rest => needle.isPrefixOf (c :: rest) ∨ listHasSub needle rest

/-- Case-insensitive unanchored substring test, for
`/a|b|.../i.test(text)` over plain literal alternatives. -/
def containsAny (subs : List String) (s : String) : Bool :=
  subs.any (fun sub => listHasSub (jsLower sub).data (jsLower s).data)

/-- Case-insensitive `^`-anchored alternation test over plain literals
(`/^(a|b|...)/i.test(text)`). -/
def startsWithAny (subs : List String) (s : String) : Bool :=
  subs.any (fun sub => (jsLower sub).data.isPrefixOf (jsLower s).data)

/-! ## The roster parser (src/content/parsers/roster.js)

The DOM table is embedded as the data the parser reads from it: rows of
cells, each cell carrying its trimmed-on-demand `textContent` and the
`href` of its first `a[href]` descendant (if any). -/

/-- One table cell as the roster parser sees it. -/
structure RCell where
  text : String := ""
  href : Option String := none
deriving DecidableEq, Repr

/-- Roster column targets; `combinedName` is the `_combinedName` marker. -/
inductive RField where
  | sourcedId | lastName | firstName | gradeLevel | homeRoom
  | enrollStatus | email | gender | dob | combinedName
deriving DecidableEq, Repr

/-- The `COLUMN_PATTERNS` table, in source (insertion) order, each regex
hand-compiled into a `Pat`. -/
def columnPatterns : List (RField × Pat) :=
  [(.sourcedId, palt [pseq [.lit "student", .anyOpt, palt [.lit "number", .lit "id"]],
                      .lit "id", pseq [.lit "sis", .anyOpt, .lit "id"], .lit "sourcedid"]),
   (.lastName, palt [pseq [.lit "last", .anyOpt, .lit "name"], .lit "surname",
                     pseq [.lit "family", .anyOpt, .lit "name"]]),
   (.firstName, palt [pseq [.lit "first", .anyOpt, .lit "name"],
                      pseq [.lit "given", .anyOpt, .lit "name"],
                      pseq [.lit "preferred", .anyOpt, .lit "name"]]),
   (.gradeLevel, palt [.lit "grade", .lit "gr", pseq [.lit "grade", .anyOpt, .lit "level"],
                       .lit "year"]),
   (.homeRoom, palt [pseq [.lit "home", .anyOpt, .lit "room"], .lit "hr", .lit "section",
                     .lit "room"]),
   (.enrollStatus, palt [.lit "status", pseq [.lit "enroll", .anyOpt, .lit "status"],
                         .lit "enrollment"]),
   (.email, palt [.lit "email", .lit "e-mail", pseq [.lit "student", .anyOpt, .lit "email"]]),
   (.gender, palt [.lit "gender", .lit "sex"]),
   (.dob, palt [.lit "dob", pseq [.lit "date", .anyOpt, .lit "of", .anyOpt, .lit "birth"],
                pseq [.lit "birth", .anyOpt, .lit "date"], .lit "birthday"])]

/-- The combined-name header regex `/^(name|student.?name|student)$/i`. -/
def combinedNamePat : Pat :=
  palt [.lit "name", pseq [.lit "student", .anyOpt, .lit "name"], .lit "student"]

/-- Embeds `mapHeaders`: each header cell takes the first
`COLUMN_PATTERNS` entry whose regex matches its trimmed text; the
mapping is in ascending column order. -/
def mapHeadersR (row : List RCell) : List (Nat × RField) :=
  row.enum.filterMap (fun p =>
    ((columnPatterns.find? (fun e => fullMatch e.2 (jsTrim p.2.text))).map (fun e => (p.1, e.1))))

/-- JS `String.prototype.split` with a character separator: every
occurrence splits, empty pieces kept. -/
def splitCharList (sep : Char) : List Char → List (List Char)
  | [] => [[]]
  | c :: rest =>
    match splitCharList sep rest with
    | [] => [[c]]
    | g :: gs => if c = sep then [] :: g :: gs else (c :: g) :: gs

/-- JS `s.split(sep)` for a single-character separator. -/
def jsSplitChar (sep : Char) (s : String) : List String :=
  (splitCharList sep s.data).map String.mk

/-- JS `s.split(/\s+/)`: pieces between maximal whitespace runs, keeping
empty edge pieces; structural recursion on a fuel bound (any
`fuel ≥ cs.length` is sufficient, since each step consumes the leading
token and at least one whitespace character). -/
def splitWsGo : Nat → List Char → List (List Char)
  | 0, cs => [cs]
  | fuel + 1, cs =>
    let tok := cs.takeWhile (fun c => jsWhitespace c = false)
    let rest := cs.dropWhile (fun c => jsWhitespace c = false)
    match rest with
    | [] => [tok]
    | _ :: tail => tok :: splitWsGo fuel (tail.dropWhile jsWhitespace)

/-- JS `s.split(/\s+/)`. -/
def jsSplitWs (s : String) : List String :=
  (splitWsGo s.data.length s.data).map String.mk

/-- Embeds `parseName`: trims the cell text, splits `"Last, First"` on
commas (all segments trimmed, only the first two kept), otherwise splits
on whitespace, taking the first token as the given name and the
remaining tokens joined by single spaces as the surname.  Returns
`(firstName, lastName)`. -/
def parseName (raw : String) : String × String :=
  let text := jsTrim raw
  if text.data.contains ',' then
    let segs := (jsSplitChar ',' text).map jsTrim
    (segs.getD 1 "", segs.getD 0 "")
  else
    let parts := jsSplitWs text
    if 2 ≤ parts.length then (parts.getD 0 "", String.intercalate " " (parts.drop 1))
    else (text, "")

/-- Maximal leading digit run, as the capture group `(\d+)` of the id
regexes takes it; `none` when the input does not start with a digit. -/
def leadDigits (cs : List Char) : Option String :=
  match cs.takeWhile Char.isDigit with
  | [] => none
  | ds => some (String.mk ds)

/-- Try `/(?:student(?:id|_id|\.id)?|frn|id)=(\d+)/i` at one position of
the (lowercased) input: alternatives in the regex's backtracking order. -/
def idEqAt (cs : List Char) : Option String :=
  let tryTail (pre : String) : Option String :=
    if pre.data.isPrefixOf cs then leadDigits (cs.drop pre.data.length) else none
  (tryTail "studentid=").orElse (fun _ =>
  (tryTail "student_id=").orElse (fun _ =>
  (tryTail "student.id=").orElse (fun _ =>
  (tryTail "student=").orElse (fun _ =>
  (tryTail "frn=").orElse (fun _ =>
  tryTail "id=")))))

/-- Leftmost match of the first id regex of `extractId` over the whole
string (JS `String.match` scans positions left to right). -/
def searchIdEq : List Char → Option String
  | [] => none
  | c :: rest =>
    match idEqAt (c :: rest) with
    | some d => some d
    | none => searchIdEq rest

/-- Leftmost match of `/\/students\/(\d+)/i`. -/
def searchStudentsPath : List Char → Option String
  | [] => none
  | c :: rest =>
    (if ("/students/".data.isPrefixOf (c :: rest)) then
      leadDigits ((c :: rest).drop "/students/".data.length)
     else none).orElse (fun _ => searchStudentsPath rest)

/-- Embeds `extractId`: if the cell holds a link, capture a numeric id
from its `href` via the two URL patterns (first pattern first); else the
trimmed cell text. -/
def extractId (cell : RCell) : String :=
  match cell.href with
  | some href =>
    match searchIdEq (jsLower href).data with
    | some d => d
    | none =>
      match searchStudentsPath (jsLower href).data with
      | some d => d
      | none => jsTrim cell.text
  | none => jsTrim cell.text

/-- Record update for one mapped roster column (the non-special fields). -/
def setRF (f : RField) (v : String) (r : StudentRecord) : StudentRecord :=
  match f with
  | .sourcedId => { r with sourcedId := some v }
  | .lastName => { r with lastName := some v }
  | .firstName => { r with firstName := some v }
  | .gradeLevel => { r with gradeLevel := some v }
  | .homeRoom => { r with homeRoom := some v }
  | .enrollStatus => { r with enrollStatus := some v }
  | .email => { r with email := some v }
  | .gender => { r with gender := some v }
  | .dob => { r with dob := some v }
  | .combinedName => r

/-- The synthesized roster fallback id
`ps_<lastName>_<firstName>_<rowIndex>` (all lowercased). -/
def synthRosterId (last first : String) (r : Nat) : String :=
  "ps_" ++ jsLower last ++ "_" ++ jsLower first ++ "_" ++ jsNumStr r

/-- The per-row loop body of `parseRoster` over the mapped columns:
returns the record before the id fallback, plus the `hasData` flag. -/
def rosterRowCore (headerMap : List (Nat × RField)) (cells : List RCell) :
    StudentRecord × Bool :=
  headerMap.foldl
    (fun acc p =>
      match cells.get? p.1 with
      | none => acc
      | some cell =>
        match p.2 with
        | .combinedName =>
          let nm := parseName cell.text
          let r1 := { acc.1 with firstName := some nm.1, lastName := some nm.2 }
          let r2 :=
            if jsTruthyO r1.sourcedId = false then
              let id := extractId cell
              if id ≠ "" ∧ id.data.any Char.isDigit then { r1 with sourcedId := some id } else r1
            else r1
          (r2, true)
        | .sourcedId => ({ acc.1 with sourcedId := some (extractId cell) }, true)
        | f =>
          let val := jsTrim cell.text
          if val ≠ "" then (setRF f val acc.1, true) else acc)
    ({}, false)

/-- Roster id fallback (roster.js lines 178–184): synthesize
`ps_<last>_<first>_<rowIndex>` when no id was found. -/
def withRosterFallbackId (r : Nat) (rec : StudentRecord) : StudentRecord :=
  if jsTruthyO rec.sourcedId then rec
  else
    let id := synthRosterId (rec.lastName.getD "") (rec.firstName.getD "") r
    { rec with sourcedId := some id }

/-- One data row of `parseRoster` (`r` is the absolute row index used by
the fallback id): skip empty cell lists and rows without a usable name. -/
def rosterRowRecord (headerMap : List (Nat × RField)) (r : Nat) (cells : List RCell) :
    Option StudentRecord :=
  if cells.length = 0 then none
  else
    let core := rosterRowCore headerMap cells
    if core.2 ∧ (jsTruthyO core.1.firstName ∨ jsTruthyO core.1.lastName) then
      some (withRosterFallbackId r core.1)
    else none

/-- Insert-or-replace into an ascending-by-column mapping, mirroring JS
integer-keyed object semantics (`headerMap[i] = field`): iteration order
stays ascending by column index. -/
def upsertAsc (m : List (Nat × RField)) (i : Nat) (f : RField) : List (Nat × RField) :=
  match m with
  | [] => [(i, f)]
  | e :: rest =>
    if e.1 = i then (i, f) :: rest
    else if i < e.1 then (i, f) :: e :: rest
    else e :: upsertAsc rest i f

/-- Header-row selection and combined-name fixup of `parseRoster`:
take the first row's mapping, falling back to the second row when the
first maps nothing; when no name column mapped, mark the first header
cell matching `/^(name|student.?name|student)$/i` as the combined-name
column. -/
def rosterHeaderMap (tbl : List (List RCell)) : List (Nat × RField) × Nat :=
  let hm0 := mapHeadersR (tbl.getD 0 [])
  let pick :=
    if hm0.length = 0 ∧ 1 < tbl.length then (mapHeadersR (tbl.getD 1 []), 1) else (hm0, 0)
  let hasName := pick.1.any (fun e => e.2 = RField.firstName ∨ e.2 = RField.lastName)
  if hasName = false then
    match (tbl.getD pick.2 []).enum.find?
        (fun p => fullMatch combinedNamePat (jsTrim p.2.text)) with
    | some p => (upsertAsc pick.1 p.1 RField.combinedName, pick.2)
    | none => pick
  else pick

/-- Embeds `parseRoster` on the embedded table: needs at least two rows
and a nonempty header mapping, then parses every row after the header
row (rows keep their absolute indices). -/
def parseRoster (tbl : List (List RCell)) : List StudentRecord :=
  if tbl.length < 2 then []
  else
    let pick := rosterHeaderMap tbl
    if pick.1.length = 0 then []
    else (tbl.enum.drop (pick.2 + 1)).filterMap (fun p => rosterRowRecord pick.1 p.1 p.2)

/-! ## The synchronizer (src/lib/capsule-client.js `syncStudents`)

The HTTP transport is the external collaborator: it is embedded as an
oracle from the batch number to the outcome of that batch's `fetch`
(a response with status and optional body text, or a thrown error —
which also covers the abort-controller timeout).  A `none` body models
`response.text()` rejecting (the source then substitutes `'unknown'`). -/

/-- Outcome of one transport call. -/
inductive FetchRes where
  | resp (status : Nat) (body : Option String)
  | thrown (msg : String)
deriving DecidableEq, Repr

/-- The `response.ok` test: status in the 2xx range. -/
def respOk (r : FetchRes) : Bool :=
  match r with
  | .resp status _ => 200 ≤ status ∧ status < 300
  | .thrown _ => false

/-- Result shape of `syncStudents`. -/
structure SyncOutcome where
  success : Nat
  failed : Nat
  errors : List String
deriving DecidableEq, Repr

/-- Embeds the batch loop of `syncStudents` (`for i += 50; slice`),
starting at batch number `bn`: it also returns the trace of batches
handed to the transport, in order.  Structural recursion on a fuel bound
(any `fuel ≥ remaining.length` is sufficient, since each step drops 50
records of a nonempty list). -/
def syncBatchesGo (transport : Nat → FetchRes) : Nat → Nat → List StudentRecord →
    SyncOutcome × List (List StudentRecord)
  | _, _, [] => (⟨0, 0, []⟩, [])
  | 0, _, _ :: _ => (⟨0, 0, []⟩, [])
  | fuel + 1, bn, s :: rest =>
    let batch := List.take 50 (s :: rest)
    let tailRes := syncBatchesGo transport fuel (bn + 1) (List.drop 50 (s :: rest))
    match transport bn with
    | .resp status body =>
      if 200 ≤ status ∧ status < 300 then
        (⟨tailRes.1.success + batch.length, tailRes.1.failed, tailRes.1.errors⟩, batch :: tailRes.2)
      else
        (⟨tailRes.1.success, tailRes.1.failed + batch.length,
          ("Batch " ++ jsNumStr (bn + 1) ++ ": HTTP " ++ jsNumStr status ++ " — " ++
           body.getD "unknown") :: tailRes.1.errors⟩,
         batch :: tailRes.2)
    | .thrown msg =>
      (⟨tailRes.1.success, tailRes.1.failed + batch.length,
        ("Batch " ++ jsNumStr (bn + 1) ++ ": " ++ msg) :: tailRes.1.errors⟩,
       batch :: tailRes.2)

/-- Embeds `syncStudents`: the token and endpoint guards throw before any
batch, then the 50-record batch loop runs over every batch in order. -/
def syncStudents (token endpoint : Option String) (students : List StudentRecord)
    (transport : Nat → FetchRes) :
    Except String (SyncOutcome × List (List StudentRecord)) :=
  if jsTruthyO token = false then .error "Not authenticated. Please log in."
  else if jsTruthyO endpoint = false then .error "Capsule endpoint not configured."
  else .ok (syncBatchesGo transport students.length 0 students)

/-! ## The detail crawler (src/content/crawler.js)

The DOM of a fetched profile page is embedded as the label/value streams
the five scraping strategies read from it, in document order:

* `tablePairs` — strategy 1: for each table row with at least two
  cells, the trimmed `(cells[0], cells[1])` pair, and additionally the
  trimmed `(th, td)` pair for rows carrying both (the source issues the
  calls in exactly that order, so both appear as separate entries);
* `dlPairs` — strategy 2: trimmed `(dt, dd)` pairs, zipped;
* `labelEvents` — strategy 3: per label element, its text, the text of
  its next sibling (if any, untrimmed: the source trims it and guards
  `value && value.length < 500` itself), and the value of the
  `for`-associated element (if resolved: `input.value` or trimmed text);
* `headingEvents` — strategy 4: per heading, its text and, when a table
  follows within five siblings, that table's rows with at least two
  cells as raw `(cells[0], cells[1])` texts;
* `inputEvents` — strategy 5: per read-only field, the resolved value
  (`input.value` or trimmed text), the text of a `label[for]` matching
  its id/name (if found), and the text of a label inside its `.field`-
  like ancestor (if found);
* `titleName` — the text of the `h1`/student-name element, if present.
-/

/-- The named scalar attributes of a `DeepStudentRecord`, in the
insertion order of `PROFILE_FIELD_PATTERNS`. -/
inductive DField where
  | sourcedId | firstName | lastName | dob | gender | ethnicity | language | gradeLevel
  | address | phone | email
  | guardianName | guardianEmail | guardianPhone
  | emergencyContact | emergencyPhone
  | homeRoom | schoolId | enrollStatus | enrollDate | exitDate
  | gpa | credits
  | iep | section504 | lunchStatus | transportation
deriving DecidableEq, Repr

/-- A `DeepStudentRecord`: the scalar attributes as a JS-object-like
property map, plus the open `schedule` and `extra` dictionaries. -/
structure DeepRecord where
  fields : DField → Option String
  schedule : List (String × String)
  extra : List (String × String)

/-- Property write on a deep record. -/
def setD (f : DField) (v : String) (r : DeepRecord) : DeepRecord :=
  { r with fields := fun g => if g = f then some v else r.fields g }

/-- The fresh record `scrapeProfilePage` starts from:
`{ sourcedId, extra: {}, schedule: {} }`. -/
def initDeep (sourcedId : String) : DeepRecord :=
  ⟨fun f => if f = DField.sourcedId then some sourcedId else none, [], []⟩

/-- The `PROFILE_FIELD_PATTERNS` table, in source (insertion) order, each
regex hand-compiled into a `Pat`. -/
def profileFieldPatterns : List (DField × Pat) :=
  [(.sourcedId, palt [pseq [.lit "student", .anyOpt, palt [.lit "number", .lit "id"]],
                      pseq [.lit "sis", .anyOpt, .lit "id"], pseq [.lit "id", .anyOpt, .lit "number"],
                      pseq [.lit "perm", .anyOpt, .lit "id"], .lit "dcid"]),
   (.firstName, palt [pseq [.lit "first", .anyOpt, .lit "name"],
                      pseq [.lit "legal", .anyOpt, .lit "first"],
                      pseq [.lit "preferred", .anyOpt, .lit "name"]]),
   (.lastName, palt [pseq [.lit "last", .anyOpt, .lit "name"],
                     pseq [.lit "legal", .anyOpt, .lit "last"], .lit "surname"]),
   (.dob, palt [pseq [.lit "date", .anyOpt, .lit "of", .anyOpt, .lit "birth"], .lit "dob",
                pseq [.lit "birth", .anyOpt, .lit "date"], .lit "birthday"]),
   (.gender, palt [.lit "gender", .lit "sex"]),
   (.ethnicity, palt [.lit "ethnicity", .lit "race", .lit "ethnic"]),
   (.language, palt [pseq [.lit "home", .anyOpt, .lit "language"],
                     pseq [.lit "primary", .anyOpt, .lit "language"], .lit "language", .lit "ell"]),
   (.gradeLevel, palt [.lit "grade", pseq [.lit "grade", .anyOpt, .lit "level"], .lit "gr",
                       pseq [.lit "current", .anyOpt, .lit "grade"]]),
   (.address, palt [.lit "address", pseq [.lit "home", .anyOpt, .lit "address"], .lit "street",
                    pseq [.lit "mailing", .anyOpt, .lit "address"], .lit "residence"]),
   (.phone, palt [.lit "phone", pseq [.lit "home", .anyOpt, .lit "phone"],
                  pseq [.lit "student", .anyOpt, .lit "phone"], .lit "cell"]),
   (.email, palt [.lit "email", pseq [.lit "student", .anyOpt, .lit "email"],
                  pseq [.lit "e", .anyOpt, .lit "mail"]]),
   (.guardianName, palt [.lit "parent", .lit "guardian", .lit "mother", .lit "father",
                         pseq [.lit "parent", .anyOpt, palt [.lit "1", .lit "name"]],
                         pseq [.lit "guardian", .anyOpt, .lit "name"],
                         pseq [.lit "emergency", .anyOpt, .lit "1", .anyOpt, .lit "name"],
                         .lit "custodial"]),
   (.guardianEmail, palt [pseq [.lit "parent", .anyOpt, .lit "email"],
                          pseq [.lit "guardian", .anyOpt, .lit "email"],
                          pseq [.lit "family", .anyOpt, .lit "email"]]),
   (.guardianPhone, palt [pseq [.lit "parent", .anyOpt, .lit "phone"],
                          pseq [.lit "guardian", .anyOpt, .lit "phone"],
                          pseq [.lit "home", .anyOpt, .lit "phone"],
                          pseq [.lit "family", .anyOpt, .lit "phone"],
                          pseq [.lit "mother", .anyOpt, .lit "phone"],
                          pseq [.lit "father", .anyOpt, .lit "phone"]]),
   (.emergencyContact, palt [pseq [.lit "emergency", .anyOpt, .lit "contact"],
                             pseq [.lit "emergency", .anyOpt, .lit "name"],
                             pseq [.lit "emergency", .anyOpt, palt [.lit "2", .lit "3"]]]),
   (.emergencyPhone, palt [pseq [.lit "emergency", .anyOpt, .lit "phone"],
                           pseq [.lit "emergency", .anyOpt, palt [.lit "2", .lit "3"],
                                 .anyOpt, .lit "phone"]]),
   (.homeRoom, palt [pseq [.lit "home", .anyOpt, .lit "room"], .lit "homeroom", .lit "hr",
                     .lit "advisory", .lit "section"]),
   (.schoolId, palt [.lit "school", .lit "building", .lit "campus",
                     pseq [.lit "school", .anyOpt, .lit "name"]]),
   (.enrollStatus, palt [pseq [.lit "enroll", .anyOpt, .lit "status"], .lit "status",
                         .lit "enrollment", .lit "active"]),
   (.enrollDate, palt [pseq [.lit "enroll", .anyOpt, .lit "date"],
                       pseq [.lit "entry", .anyOpt, .lit "date"],
                       pseq [.lit "admission", .anyOpt, .lit "date"]]),
   (.exitDate, palt [pseq [.lit "exit", .anyOpt, .lit "date"],
                     pseq [.lit "withdrawal", .anyOpt, .lit "date"],
                     pseq [.lit "leave", .anyOpt, .lit "date"]]),
   (.gpa, palt [.lit "gpa", pseq [.lit "cumulative", .anyOpt, .lit "gpa"],
                pseq [.lit "grade", .anyOpt, .lit "point"],
                pseq [.lit "weighted", .anyOpt, .lit "gpa"]]),
   (.credits, palt [.lit "credits", pseq [.lit "total", .anyOpt, .lit "credits"],
                    pseq [.lit "earned", .anyOpt, .lit "credits"]]),
   (.iep, palt [.lit "iep", pseq [.lit "special", .anyOpt, .lit "ed"], .lit "sped",
                .lit "individualized", pseq [.lit "504", .anyOpt, .lit "plan"],
                pseq [.lit "section", .anyOpt, .lit "504"]]),
   (.section504, palt [.lit "504", pseq [.lit "section", .anyOpt, .lit "504"],
                       .lit "accommodation"]),
   (.lunchStatus, palt [.lit "lunch", pseq [.lit "free", .anyOpt, .opt (.lit "reduced")],
                        pseq [.lit "meal", .anyOpt, .lit "status"], .lit "frl"]),
   (.transportation, palt [.lit "transport", .lit "bus", .lit "transportation", .lit "route"])]

/-- The label cleanup of `processLabelValue`:
`label.replace(/[:\s*]+$/, '').trim()`. -/
def cleanLabel (label : String) : String :=
  jsTrim (String.mk ((label.data.reverse.dropWhile
    (fun c => c = ':' ∨ c = '*' ∨ jsWhitespace c)).reverse))

/-- Embeds `processLabelValue`: guard empty/oversized inputs, clean the
label, give the value to the first matching pattern's field unless that
field is already populated (never overwriting a non-empty value), and
store unrecognized pairs into `extra` (where a repeated label does
overwrite). -/
def processLabelValue (label value : String) (r : DeepRecord) : DeepRecord :=
  if label = "" ∨ value = "" ∨ 500 < value.length then r
  else
    let cl := cleanLabel label
    if cl = "" then r
    else
      match profileFieldPatterns.find? (fun e => fullMatch e.2 cl) with
      | some e => if jsTruthyO (r.fields e.1) then r else setD e.1 value r
      | none => { r with extra := jsSet r.extra cl value }

/-- Embeds `parseScheduleSection` applied to the table found after a
schedule heading (if any): each row's trimmed period/class pair is
recorded unless blank or a header-like period
(`/^(period|time|class)/i`). -/
def parseScheduleSection (tableRows : Option (List (String × String))) (r : DeepRecord) :
    DeepRecord :=
  match tableRows with
  | none => r
  | some rows =>
    rows.foldl
      (fun r p =>
        let period := jsTrim p.1
        let cls := jsTrim p.2
        if period ≠ "" ∧ cls ≠ "" ∧ startsWithAny ["period", "time", "class"] period = false then
          { r with schedule := jsSet r.schedule period cls }
        else r)
      r

/-- One label element of strategy 3. -/
structure LabelEvent where
  labelText : String
  sibling : Option String := none
  forValue : Option String := none
deriving Repr

/-- One heading of strategy 4: its text, and the rows of the table found
within five following siblings, when there is one. -/
structure HeadingEvent where
  text : String
  tableRows : Option (List (String × String)) := none
deriving Repr

/-- One read-only field of strategy 5. -/
structure InputEvent where
  value : String
  forLabel : Option String := none
  parentLabel : Option String := none
deriving Repr

/-- The data `scrapeProfilePage` reads from a fetched profile document. -/
structure ProfileDoc where
  tablePairs : List (String × String) := []
  dlPairs : List (String × String) := []
  labelEvents : List LabelEvent := []
  headingEvents : List HeadingEvent := []
  inputEvents : List InputEvent := []
  titleName : Option String := none

/-- The name-from-title fallback at the end of `scrapeProfilePage`
(split a `"Last, First"` or `"First Last"` page title). -/
def applyTitleName (t : Option String) (r : DeepRecord) : DeepRecord :=
  match t with
  | none => r
  | some txt =>
    let text := jsTrim txt
    if text.data.contains ',' then
      let segs := (jsSplitChar ',' text).map jsTrim
      setD .lastName (segs.getD 0 "") (setD .firstName (segs.getD 1 "") r)
    else
      let parts := jsSplitWs text
      setD .lastName (String.intercalate " " (parts.drop 1))
        (setD .firstName (parts.getD 0 "") r)

/-- The five extraction strategies of `scrapeProfilePage`, run from an
arbitrary starting record (the page function starts them from
`initDeep`). -/
def scrapeStrategies (doc : ProfileDoc) (r : DeepRecord) : DeepRecord :=
  let r1 := doc.tablePairs.foldl (fun r p => processLabelValue (jsTrim p.1) (jsTrim p.2) r) r
  let r2 := doc.dlPairs.foldl (fun r p => processLabelValue (jsTrim p.1) (jsTrim p.2) r) r1
  let r3 := doc.labelEvents.foldl
    (fun r ev =>
      let lt := jsTrim ev.labelText
      let ra :=
        match ev.sibling with
        | some v =>
          let value := jsTrim v
          if value ≠ "" ∧ value.length < 500 then processLabelValue lt value r else r
        | none => r
      match ev.forValue with
      | some v => if v ≠ "" then processLabelValue lt v ra else ra
      | none => ra)
    r2
  let r4 := doc.headingEvents.foldl
    (fun r hv =>
      if containsAny ["schedule", "classes", "courses", "period"] (jsTrim hv.text) then
        parseScheduleSection hv.tableRows r
      else r)
    r3
  doc.inputEvents.foldl
    (fun r ev =>
      if ev.value = "" then r
      else
        match ev.forLabel with
        | some l => processLabelValue (jsTrim l) ev.value r
        | none =>
          match ev.parentLabel with
          | some l => processLabelValue (jsTrim l) ev.value r
          | none => r)
    r4

/-- The whole scrape pipeline from an arbitrary starting record: the five
strategies, then the title-name fallback when no name was found. -/
def scrapeFrom (doc : ProfileDoc) (r : DeepRecord) : DeepRecord :=
  let r5 := scrapeStrategies doc r
  if jsTruthyO (r5.fields .firstName) = false ∧ jsTruthyO (r5.fields .lastName) = false then
    applyTitleName doc.titleName r5
  else r5

/-- Embeds `scrapeProfilePage doc sourcedId`. -/
def scrapeProfilePage (doc : ProfileDoc) (sourcedId : String) : DeepRecord :=
  scrapeFrom doc (initDeep sourcedId)

/-- One candidate link from `extractStudentLinks`. -/
structure StudentLink where
  sourcedId : String
  name : String
  url : String
deriving DecidableEq, Repr

/-- Outcome of fetching one profile URL: a response carrying `ok` and (when
ok) the parsed document, or a thrown error — which also covers the abort
timeout (`AbortError`). -/
inductive ProfileFetch where
  | page (ok : Bool) (doc : ProfileDoc)
  | failed (msg : String)

/-- Embeds `fetchAndScrapeProfile`: `null` on a non-ok response and on any
thrown error (both caught inside the function), the scraped record
otherwise. -/
def fetchAndScrapeProfile (net : String → ProfileFetch) (url sourcedId : String) :
    Option DeepRecord :=
  match net url with
  | .page true doc => some (scrapeProfilePage doc sourcedId)
  | .page false _ => none
  | .failed _ => none

/-- The item loop of `deepCrawl`: a failed or empty fetch is skipped and
the loop continues with the next link (the progress callback and the
inter-item delay carry no data and are not modeled). -/
def crawlGo (net : String → ProfileFetch) : List StudentLink → List DeepRecord
  | [] => []
  | l :: rest =>
    match fetchAndScrapeProfile net l.url l.sourcedId with
    | some rec => rec :: crawlGo net rest
    | none => crawlGo net rest

/-- Embeds `deepCrawl` over an extracted link list (the early return for
an empty list, then the sequential item loop). -/
def deepCrawl (net : String → ProfileFetch) (links : List StudentLink) : List DeepRecord :=
  if links.length = 0 then [] else crawlGo net links

/-! ## The session-token storage layer (src/lib/storage.js)

The crypto capability (`encrypt`/`decrypt`) and the backing key-value
store are external; `decrypt` is an oracle from blob and passphrase to
the plaintext (`none` embeds the rejection on a wrong passphrase or
tampered blob).  The module state is the in-memory `_sessionToken` and
the stored encrypted blob. -/

/-- Module-level state of storage.js. -/
structure VaultState where
  session : Option String
  stored : Option String
deriving DecidableEq, Repr

/-- Embeds `setToken`: cache the token in memory and store its encrypted
blob. -/
def setToken (encryptF : String → String → String) (token passphrase : String)
    (_st : VaultState) : VaultState :=
  ⟨some token, some (encryptF token passphrase)⟩

/-- Embeds `getToken`: a truthy in-memory token is returned as-is for any
passphrase; otherwise a falsy passphrase yields `null`; otherwise the
stored blob (if any) is decrypted, a success being cached in memory and
a failure yielding `null`. -/
def getToken (decryptF : String → String → Option String) (passphrase : Option String)
    (st : VaultState) : Option String × VaultState :=
  if jsTruthyO st.session then (st.session, st)
  else if jsTruthyO passphrase = false then (none, st)
  else
    match st.stored with
    | none => (none, st)
    | some blob =>
      match decryptF blob (passphrase.getD "") with
      | some tok => (some tok, { st with session := some tok })
      | none => (none, st)

/-- Embeds `clearSession`. -/
def clearSession (st : VaultState) : VaultState := { st with session := none }

/-! ## Dictionary lemmas -/

theorem jsGet_jsSet_self (m : List (String × String)) (k v : String) :
    jsGet (jsSet m k v) k = some v := by
  induction m with
  | nil => simp [jsGet, jsSet]
  | cons p rest ih =>
    by_cases h : p.1 = k
    · simp [jsSet, if_pos h, jsGet]
    · simp only [jsSet, if_neg h, jsGet, if_neg h, ih]

theorem jsGet_jsSet_ne (m : List (String × String)) (k v k' : String) (h : k' ≠ k) :
    jsGet (jsSet m k v) k' = jsGet m k' := by
  induction m with
  | nil =>
    simp only [jsSet, jsGet]
    rw [if_neg (fun hh => h hh.symm)]
  | cons p rest ih =>
    by_cases hp : p.1 = k
    · subst hp
      simp only [jsSet, if_pos rfl, jsGet]
      rw [if_neg (fun hh => h hh.symm), if_neg (fun hh => h hh.symm)]
    · simp only [jsSet, if_neg hp, jsGet]
      by_cases hp2 : p.1 = k'
      · rw [if_pos hp2, if_pos hp2]
      · rw [if_neg hp2, if_neg hp2, ih]

/-- The id-to-hash insertion step the differ folds over its input. -/
def hashIns (m : List (String × String)) (s : StudentRecord) : List (String × String) :=
  jsSet m (jsKey s.sourcedId) (hashStudent s)

theorem foldl_hashIns_not_mem (sts : List StudentRecord) (m : List (String × String))
    (k : String) (h : k ∉ sts.map (fun s => jsKey s.sourcedId)) :
    jsGet (sts.foldl hashIns m) k = jsGet m k := by
  induction sts generalizing m with
  | nil => rfl
  | cons t rest ih =>
    simp only [List.map_cons, List.mem_cons] at h
    push_neg at h
    rw [List.foldl_cons, ih _ h.2, hashIns, jsGet_jsSet_ne _ _ _ _ h.1]

theorem foldl_hashIns_mem (sts : List StudentRecord) (m : List (String × String))
    (s : StudentRecord) (hnd : (sts.map (fun s => jsKey s.sourcedId)).Nodup) (hs : s ∈ sts) :
    jsGet (sts.foldl hashIns m) (jsKey s.sourcedId) = some (hashStudent s) := by
  induction sts generalizing m with
  | nil => cases hs
  | cons t rest ih =>
    simp only [List.map_cons, List.nodup_cons] at hnd
    rcases List.mem_cons.mp hs with h | h
    · subst h
      rw [List.foldl_cons, foldl_hashIns_not_mem _ _ _ hnd.1, hashIns, jsGet_jsSet_self]
    · rw [List.foldl_cons]
      exact ih _ hnd.2 h

theorem foldl_hashIns_isSome (sts : List StudentRecord) (m : List (String × String))
    (k : String) (h : (jsGet (sts.foldl hashIns m) k).isSome = true) :
    (jsGet m k).isSome = true ∨ k ∈ sts.map (fun s => jsKey s.sourcedId) := by
  by_cases hk : k ∈ sts.map (fun s => jsKey s.sourcedId)
  · exact Or.inr hk
  · rw [foldl_hashIns_not_mem _ _ _ hk] at h
    exact Or.inl h

theorem foldl_hashIns_values (sts : List StudentRecord) (m : List (String × String))
    (k v : String) (h : jsGet (sts.foldl hashIns m) k = some v) :
    jsGet m k = some v ∨ ∃ s ∈ sts, v = hashStudent s := by
  induction sts generalizing m with
  | nil => exact Or.inl h
  | cons t rest ih =>
    rw [List.foldl_cons] at h
    rcases ih _ h with h2 | h2
    · by_cases hk : k = jsKey t.sourcedId
      · subst hk
        rw [hashIns, jsGet_jsSet_self] at h2
        exact Or.inr ⟨t, List.mem_cons_self t rest, (Option.some_inj.mp h2).symm⟩
      · rw [hashIns, jsGet_jsSet_ne _ _ _ _ hk] at h2
        exact Or.inl h2
    · rcases h2 with ⟨s, hsm, hv⟩
      exact Or.inr ⟨s, List.mem_cons_of_mem _ hsm, hv⟩

/-! ## Differ lemmas -/

theorem diffGo_changed (existing : List (String × String)) (sts : List StudentRecord)
    (ch : List StudentRecord) (nh : List (String × String)) :
    (diffGo existing sts ch nh).1 =
      ch ++ sts.filter
        (fun s => decide (jsGet existing (jsKey s.sourcedId) ≠ some (hashStudent s))) := by
  induction sts generalizing ch nh with
  | nil => simp [diffGo]
  | cons t rest ih =>
    by_cases h : jsGet existing (jsKey t.sourcedId) = some (hashStudent t)
    · simp [diffGo, h, ih]
    · simp [diffGo, h, ih]

theorem diffGo_newHashes (existing : List (String × String)) (sts : List StudentRecord)
    (ch : List StudentRecord) (nh : List (String × String)) :
    (diffGo existing sts ch nh).2 = sts.foldl hashIns nh := by
  induction sts generalizing ch nh with
  | nil => rfl
  | cons t rest ih =>
    by_cases h : jsGet existing (jsKey t.sourcedId) = some (hashStudent t)
    · simp [diffGo, h, ih, List.foldl_cons, hashIns]
    · simp [diffGo, h, ih, List.foldl_cons, hashIns]

/-! ## Digest shape lemmas -/

theorem sha256hex_length (s : String) : (sha256hex s).length = 64 := rfl

theorem wordBytes_lt (w : Nat) (b : Nat) (h : b ∈ wordBytes w) : b < 256 := by
  simp only [wordBytes, List.mem_cons, List.not_mem_nil, or_false] at h
  rcases h with h | h | h | h <;> subst h <;> exact Nat.mod_lt _ (by omega)

theorem sha256_bytes_lt (msg : List Nat) (b : Nat) (h : b ∈ sha256 msg) : b < 256 := by
  simp only [sha256, List.mem_flatMap] at h
  rcases h with ⟨w, _, hw⟩
  exact wordBytes_lt w b hw

theorem hexDigit_is_hex (n : Nat) (h : n < 16) :
    (hexDigit n).isDigit = true ∨ ('a' ≤ hexDigit n ∧ hexDigit n ≤ 'f') := by
  interval_cases n <;> decide

theorem hexOfBytes_chars (bs : List Nat) (hb : ∀ b ∈ bs, b < 256) (c : Char)
    (hc : c ∈ (hexOfBytes bs).data) :
    c.isDigit = true ∨ ('a' ≤ c ∧ c ≤ 'f') := by
  induction bs with
  | nil => cases hc
  | cons b rest ih =>
    have hb0 : b < 256 := hb b (List.mem_cons_self b rest)
    have hc2 : c ∈ [hexDigit (b / 16), hexDigit (b % 16)] ∨
        c ∈ (hexOfBytes rest).data := by
      simpa only [hexOfBytes, List.flatMap_cons, List.mem_append] using hc
    rcases hc2 with h | h
    · simp only [List.mem_cons, List.not_mem_nil, or_false] at h
      rcases h with h | h <;> subst h
      · exact hexDigit_is_hex _ (by omega)
      · exact hexDigit_is_hex _ (by omega)
    · exact ih (fun x hx => hb x (List.mem_cons_of_mem _ hx)) h

theorem sha256hex_chars (s : String) (c : Char) (hc : c ∈ (sha256hex s).data) :
    c.isDigit = true ∨ ('a' ≤ c ∧ c ≤ 'f') :=
  hexOfBytes_chars _ (sha256_bytes_lt (utf8Encode s)) c hc

/-! ## Claim C1 — the differ's changed set and replacement index -/

/-- Claim C1 (amended to records with pairwise-distinct `sourcedId`s):
`diffStudents` marks a record as changed exactly when its id is absent
from the prior index or its SHA-256 hex digest of the fixed
serialization differs from the stored value; `newHashes` holds an entry
for every input record and for no other id, each value being that
digest; and every stored value is a 64-character lowercase hex string
(no name or email text). -/
theorem diffStudents_spec (students : List StudentRecord) (existing : List (String × String))
    (hnd : (students.map (fun s => jsKey s.sourcedId)).Nodup) :
    (diffStudents students existing).1 =
      students.filter
        (fun s => decide (jsGet existing (jsKey s.sourcedId) ≠ some (hashStudent s))) ∧
    (∀ s ∈ students,
      jsGet (diffStudents students existing).2 (jsKey s.sourcedId) =
        some (sha256hex (serializeStudent s))) ∧
    (∀ k, (jsGet (diffStudents students existing).2 k).isSome = true →
      k ∈ students.map (fun s => jsKey s.sourcedId)) ∧
    (∀ k v, jsGet (diffStudents students existing).2 k = some v →
      v.length = 64 ∧ ∀ c ∈ v.data, c.isDigit = true ∨ ('a' ≤ c ∧ c ≤ 'f')) := by
  refine ⟨?_, ?_, ?_, ?_⟩
  · rw [diffStudents, diffGo_changed]
    rfl
  · intro s hs
    rw [diffStudents, diffGo_newHashes]
    exact foldl_hashIns_mem students [] s hnd hs
  · intro k hk
    rw [diffStudents, diffGo_newHashes] at hk
    rcases foldl_hashIns_isSome students [] k hk with h | h
    · cases h
    · exact h
  · intro k v hv
    rw [diffStudents, diffGo_newHashes] at hv
    rcases foldl_hashIns_values students [] k v hv with h | h
    · cases h
    · rcases h with ⟨s, _, rfl⟩
      exact ⟨sha256hex_length _, fun c hc => sha256hex_chars _ c hc⟩

/-- Witness for C1 at a concrete two-record input. -/
theorem diffStudents_spec_witness :
    (([{ sourcedId := some "A1", firstName := some "Ann", lastName := some "Lee" },
       { sourcedId := some "B2", firstName := some "Bea", lastName := some "Roe" }] :
        List StudentRecord).map (fun s => jsKey s.sourcedId)).Nodup ∧
    (∀ s ∈ ([{ sourcedId := some "A1", firstName := some "Ann", lastName := some "Lee" },
             { sourcedId := some "B2", firstName := some "Bea", lastName := some "Roe" }] :
              List StudentRecord),
      jsGet (diffStudents
        [{ sourcedId := some "A1", firstName := some "Ann", lastName := some "Lee" },
         { sourcedId := some "B2", firstName := some "Bea", lastName := some "Roe" }] []).2
        (jsKey s.sourcedId) = some (sha256hex (serializeStudent s))) :=
  ⟨by decide, (diffStudents_spec _ [] (by decide)).2.1⟩

/-- Counterexample to C1 as stated: with two input records sharing the
id `"X"` but different first names, `newHashes` cannot give both records
their own digest — the entry at `"X"` is not the first record's digest,
so the C1 clause "an entry for every input record, each value being that
record's hex digest" fails without the distinct-id hypothesis. -/
theorem diffStudents_duplicate_id_counterexample :
    ({ sourcedId := some "X", firstName := some "Ann" } : StudentRecord) ∈
      ([{ sourcedId := some "X", firstName := some "Ann" },
        { sourcedId := some "X", firstName := some "Bea" }] : List StudentRecord) ∧
    jsGet (diffStudents
        [{ sourcedId := some "X", firstName := some "Ann" },
         { sourcedId := some "X", firstName := some "Bea" }] []).2
      (jsKey (some "X")) ≠
      some (hashStudent { sourcedId := some "X", firstName := some "Ann" }) := by
  constructor
  · decide
  · decide

/-! ## Claim C2 — idempotence of the differ -/

/-- Claim C2: for records with pairwise-distinct `sourcedId`s, running
the differ again with the `newHashes` index produced by a first run
yields an empty changed sequence. -/
theorem diff_idempotent (students : List StudentRecord) (h0 : List (String × String))
    (hnd : (students.map (fun s => jsKey s.sourcedId)).Nodup) :
    (diffStudents students (diffStudents students h0).2).1 = [] := by
  rw [diffStudents, diffGo_changed, List.nil_append, List.filter_eq_nil_iff]
  intro s hs
  rw [diffStudents, diffGo_newHashes]
  simp [foldl_hashIns_mem students [] s hnd hs, hashStudent]

/-- Witness for C2 at a concrete two-record input. -/
theorem diff_idempotent_witness :
    (([{ sourcedId := some "A1", firstName := some "Ann" },
       { sourcedId := some "B2", firstName := some "Bea" }] :
        List StudentRecord).map (fun s => jsKey s.sourcedId)).Nodup ∧
    (diffStudents
      [{ sourcedId := some "A1", firstName := some "Ann" },
       { sourcedId := some "B2", firstName := some "Bea" }]
      (diffStudents
        [{ sourcedId := some "A1", firstName := some "Ann" },
         { sourcedId := some "B2", firstName := some "Bea" }] []).2).1 = [] :=
  ⟨by decide, diff_idempotent _ [] (by decide)⟩

/-! ## Chunking lemmas -/

theorem chunksOfGo_irrel (n : Nat) (hn : n ≠ 0) :
    ∀ (fuel1 fuel2 : Nat) (l : List α), l.length ≤ fuel1 → l.length ≤ fuel2 →
      chunksOfGo n fuel1 l = chunksOfGo n fuel2 l := by
  intro fuel1
  induction fuel1 with
  | zero =>
    intro fuel2 l h1 _
    cases l with
    | nil => cases fuel2 <;> rfl
    | cons x xs => simp at h1
  | succ f ih =>
    intro fuel2 l h1 h2
    cases l with
    | nil => cases fuel2 <;> rfl
    | cons x xs =>
      cases fuel2 with
      | zero => simp at h2
      | succ f2 =>
        simp only [chunksOfGo, if_neg hn]
        have hd : (List.drop n (x :: xs)).length ≤ f := by
          simp only [List.length_drop, List.length_cons]
          simp only [List.length_cons] at h1
          omega
        have hd2 : (List.drop n (x :: xs)).length ≤ f2 := by
          simp only [List.length_drop, List.length_cons]
          simp only [List.length_cons] at h2
          omega
        rw [ih f2 _ hd hd2]

theorem chunksOf_cons (n : Nat) (hn : n ≠ 0) (x : α) (xs : List α) :
    chunksOf n (x :: xs) =
      List.take n (x :: xs) :: chunksOf n (List.drop n (x :: xs)) := by
  show chunksOfGo n (x :: xs).length (x :: xs) = _
  simp only [List.length_cons, chunksOfGo, if_neg hn]
  rw [chunksOfGo_irrel n hn xs.length (List.drop n (x :: xs)).length]
  · rfl
  · simp only [List.length_drop, List.length_cons]
    omega
  · exact Nat.le_refl _

/-! ## Synchronizer loop lemmas -/

theorem syncBatchesGo_spec (transport : Nat → FetchRes) :
    ∀ (fuel bn : Nat) (students : List StudentRecord), students.length ≤ fuel →
      (syncBatchesGo transport fuel bn students).2 = chunksOf 50 students ∧
      (syncBatchesGo transport fuel bn students).1.success =
        ((((chunksOf 50 students).enumFrom bn).filter (fun p => respOk (transport p.1))).map
          (fun p => p.2.length)).sum ∧
      (syncBatchesGo transport fuel bn students).1.failed =
        ((((chunksOf 50 students).enumFrom bn).filter
          (fun p => respOk (transport p.1) = false)).map (fun p => p.2.length)).sum ∧
      (syncBatchesGo transport fuel bn students).1.errors.length =
        (((chunksOf 50 students).enumFrom bn).filter
          (fun p => respOk (transport p.1) = false)).length := by
  intro fuel
  induction fuel with
  | zero =>
    intro bn students h
    cases students with
    | nil => exact ⟨rfl, rfl, rfl, rfl⟩
    | cons s rest => simp at h
  | succ f ih =>
    intro bn students h
    cases students with
    | nil => exact ⟨rfl, rfl, rfl, rfl⟩
    | cons s rest =>
      have hd : (List.drop 49 rest).length ≤ f := by
        simp only [List.length_drop, List.length_cons] at h ⊢
        omega
      have iht := ih (bn + 1) (List.drop 49 rest) hd
      rw [chunksOf_cons 50 (by omega) s rest, List.enumFrom_cons,
        show List.drop 50 (s :: rest) = List.drop 49 rest from rfl,
        show List.take 50 (s :: rest) = s :: List.take 49 rest from rfl]
      obtain ⟨ih1, ih2, ih3, ih4⟩ := iht
      cases htr : transport bn with
      | resp status body =>
        by_cases hok : 200 ≤ status ∧ status < 300
        · have hro : respOk (FetchRes.resp status body) = true := by
            simp only [respOk, decide_eq_true_eq]; exact hok
          refine ⟨?_, ?_, ?_, ?_⟩
          all_goals simp [syncBatchesGo, htr, if_pos hok, List.filter_cons, hro, ih1, ih2, ih3,
            ih4]
          all_goals omega
        · have hro : respOk (FetchRes.resp status body) = false := by
            simp only [respOk, decide_eq_false_iff_not]; exact hok
          refine ⟨?_, ?_, ?_, ?_⟩
          all_goals simp [syncBatchesGo, htr, if_neg hok, List.filter_cons, hro, ih1, ih2, ih3,
            ih4]
          all_goals omega
      | thrown msg =>
        have hro : respOk (FetchRes.thrown msg) = false := rfl
        refine ⟨?_, ?_, ?_, ?_⟩
        all_goals simp [syncBatchesGo, htr, List.filter_cons, hro, ih1, ih2, ih3, ih4]
        all_goals omega

/-! ## Claim C3 — batch partitioning and partial-failure isolation -/

/-- The 120-record input of the partial-failure scenario. -/
def syncScenarioStudents : List StudentRecord :=
  (List.range 120).map (fun i =>
    { sourcedId := some (jsNumStr i), firstName := some "F", lastName := some "L" })

/-- The scenario transport: only the second batch's call fails (thrown
network error); every other batch gets a 200 response. -/
def syncScenarioTransport : Nat → FetchRes :=
  fun n => if n = 1 then .thrown "network error" else .resp 200 (some "ok")

/-- Claim C3: `syncStudents` partitions its input into consecutive
batches of 50 (last batch smaller), attempts every batch in order
regardless of earlier failures (the trace it hands the transport is the
full chunk list), counts a batch's full size into `success` on a 2xx
response and into `failed` otherwise with one error string per failed
batch; in particular, for 120 records whose second batch's transport
call throws, the outcome is success 70, failed 50, one error, with the
third batch (records 100–119) still attempted. -/
theorem syncStudents_batching_spec (token endpoint : Option String)
    (htok : jsTruthyO token = true) (hend : jsTruthyO endpoint = true) :
    (∀ (students : List StudentRecord) (transport : Nat → FetchRes),
      syncStudents token endpoint students transport =
        .ok (syncBatchesGo transport students.length 0 students)) ∧
    (∀ (students : List StudentRecord) (transport : Nat → FetchRes),
      (syncBatchesGo transport students.length 0 students).2 = chunksOf 50 students) ∧
    (∀ (students : List StudentRecord) (transport : Nat → FetchRes),
      (syncBatchesGo transport students.length 0 students).1.success =
        ((((chunksOf 50 students).enumFrom 0).filter (fun p => respOk (transport p.1))).map
          (fun p => p.2.length)).sum ∧
      (syncBatchesGo transport students.length 0 students).1.failed =
        ((((chunksOf 50 students).enumFrom 0).filter
          (fun p => respOk (transport p.1) = false)).map (fun p => p.2.length)).sum ∧
      (syncBatchesGo transport students.length 0 students).1.errors.length =
        (((chunksOf 50 students).enumFrom 0).filter
          (fun p => respOk (transport p.1) = false)).length) ∧
    (syncStudents token endpoint syncScenarioStudents syncScenarioTransport =
      .ok (⟨70, 50, ["Batch 2: network error"]⟩, chunksOf 50 syncScenarioStudents) ∧
     (chunksOf 50 syncScenarioStudents).length = 3 ∧
     (chunksOf 50 syncScenarioStudents).getD 2 [] = syncScenarioStudents.drop 100) := by
  have hsync : ∀ (students : List StudentRecord) (transport : Nat → FetchRes),
      syncStudents token endpoint students transport =
        .ok (syncBatchesGo transport students.length 0 students) := by
    intro students transport
    rw [syncStudents, htok, hend]
    rfl
  refine ⟨hsync, ?_, ?_, ?_⟩
  · intro students transport
    exact (syncBatchesGo_spec transport students.length 0 students (Nat.le_refl _)).1
  · intro students transport
    exact (syncBatchesGo_spec transport students.length 0 students (Nat.le_refl _)).2
  · refine ⟨?_, by decide, by decide⟩
    rw [hsync]
    have hout : syncBatchesGo syncScenarioTransport syncScenarioStudents.length 0
        syncScenarioStudents =
        (⟨70, 50, ["Batch 2: network error"]⟩, chunksOf 50 syncScenarioStudents) := by decide
    rw [hout]

/-- Witness for C3 at a concrete truthy token and endpoint. -/
theorem syncStudents_batching_spec_witness :
    jsTruthyO (some "tok") = true ∧ jsTruthyO (some "https://capsule.example") = true ∧
    syncStudents (some "tok") (some "https://capsule.example") syncScenarioStudents
        syncScenarioTransport =
      .ok (⟨70, 50, ["Batch 2: network error"]⟩, chunksOf 50 syncScenarioStudents) :=
  ⟨by decide, by decide,
   (syncStudents_batching_spec (some "tok") (some "https://capsule.example")
     (by decide) (by decide)).2.2.2.1⟩

/-! ## Claim C4 — RFC 4180 tokenizer semantics -/

/-- Double every quote, as a writer escapes a quoted CSV field body. -/
def escQChars : List Char → List Char
  | [] => []
  | c :: rest => if c = '"' then '"' :: '"' :: escQChars rest else c :: escQChars rest

/-- Render a fully quoted CSV field. -/
def csvQuote (s : String) : String := "\"" ++ String.mk (escQChars s.data) ++ "\""

/-- The remainder after a closing quote must not begin with another quote
(that would read as an escaped quote instead). -/
def headNeQuote : List Char → Prop
  | '"' :: _ => False
  | _ => True

theorem scan_passthrough (st : CSVState) (c : Char) (l : List Char)
    (hq : st.inQuotes = true) (hc : c ≠ '"') :
    scanCSV st (c :: l) = scanCSV (csvAddC st c) l := by
  rw [scanCSV.eq_def]
  split
  all_goals simp_all

theorem scan_openQuote (st : CSVState) (l : List Char) (hq : st.inQuotes = false) :
    scanCSV st ('"' :: l) = scanCSV { st with inQuotes := true } l := by
  rw [scanCSV.eq_def]
  split
  · simp_all
  · simp_all
  · simp_all
  · simp_all
  · rename_i c2 rest2 hc hnr heq
    injection heq with h1 h2
    exact absurd h1.symm hc

theorem scan_comma (st : CSVState) (l : List Char) (hq : st.inQuotes = false) :
    scanCSV st (',' :: l) = scanCSV (csvPushField st) l := by
  rw [scanCSV.eq_def]
  split
  · simp_all
  · simp_all
  · simp_all
  · simp_all
  · rename_i c2 rest2 hc hnr heq
    injection heq with h1 h2
    subst h2
    subst h1
    simp [hq]

theorem scan_escQ (cs : List Char) : ∀ (st : CSVState) (rest : List Char),
    st.inQuotes = true → headNeQuote rest →
    scanCSV st (escQChars cs ++ '"' :: rest) =
      scanCSV { st with current := st.current ++ cs, inQuotes := false } rest := by
  induction cs with
  | nil =>
    intro st rest hq hr
    cases rest with
    | nil => simp [escQChars, scanCSV, hq]
    | cons c2 r2 =>
      have hc2 : c2 ≠ '"' := by
        intro h
        subst h
        simp [headNeQuote] at hr
      simp only [escQChars, List.nil_append]
      rw [scanCSV.eq_def]
      split
      · simp_all
      · rename_i rest2 heq
        injection heq with h1 h2
        injection h2 with h3 h4
        exact absurd h3 hc2
      · rename_i rest2 hno heq
        injection heq with h1 h2
        subst h2
        simp [hq]
      · simp_all
      · rename_i c3 rest3 hc3 hnr heq
        injection heq with h1 h2
        exact absurd h1.symm hc3
  | cons c cs ih =>
    intro st rest hq hr
    by_cases hc : c = '"'
    · subst hc
      show scanCSV st ('"' :: '"' :: (escQChars cs ++ '"' :: rest)) = _
      rw [scanCSV.eq_def]
      simp only [hq, if_true]
      rw [ih (csvAddC st '"') rest (by simp [csvAddC, hq]) hr]
      simp [csvAddC, escQChars]
    · have hl : escQChars (c :: cs) ++ '"' :: rest = c :: (escQChars cs ++ '"' :: rest) := by
        simp [escQChars, hc]
      rw [hl, scan_passthrough st c _ hq hc,
        ih (csvAddC st c) rest (by simp [csvAddC, hq]) hr]
      simp [csvAddC]

theorem parseCSV_two_quoted_fields (f1 f2 : String) :
    parseCSV (csvQuote f1 ++ "," ++ csvQuote f2) = ⟨[jsTrim f1, jsTrim f2], []⟩ := by
  have hdata : (csvQuote f1 ++ "," ++ csvQuote f2).data =
      '"' :: (escQChars f1.data ++ '"' :: ',' :: '"' :: (escQChars f2.data ++ '"' :: [])) := by
    show ((((['"'] ++ escQChars f1.data) ++ ['"']) ++ [',']) ++
        ((['"'] ++ escQChars f2.data) ++ ['"'])) = _
    simp [List.append_assoc]
  rw [parseCSV, parseCSVRows, hdata,
    scan_openQuote _ _ rfl,
    scan_escQ f1.data _ _ rfl (by trivial),
    scan_comma _ _ rfl,
    scan_openQuote _ _ rfl,
    scan_escQ f2.data _ [] rfl (by trivial)]
  simp [scanCSV, csvFlushRow, csvPushField]

theorem scan_crlf (rows : List (List String)) (lines : List String) (current : List Char)
    (rest : List Char) :
    scanCSV ⟨rows, lines, current, false⟩ ('\r' :: '\n' :: rest) =
      scanCSV ⟨rows, lines, current, false⟩ ('\n' :: rest) := by
  simp [scanCSV]

/-- Claim C4: the tokenizer implements RFC 4180 field semantics — for
any two field bodies, the fully quoted doubled-quote rendering parses
back to exactly those two fields (so doubled quotes read as one literal
quote and commas/newlines inside quotes stay inside one field), an
unquoted `\r\n` terminates a row exactly as a bare `\n` does, and the
spec's example row parses to exactly two fields. -/
theorem parseCSV_rfc4180_spec :
    (∀ f1 f2 : String,
      parseCSV (csvQuote f1 ++ "," ++ csvQuote f2) = ⟨[jsTrim f1, jsTrim f2], []⟩) ∧
    (∀ (rows : List (List String)) (lines : List String) (current rest : List Char),
      scanCSV ⟨rows, lines, current, false⟩ ('\r' :: '\n' :: rest) =
        scanCSV ⟨rows, lines, current, false⟩ ('\n' :: rest)) ∧
    parseCSV "\"Doe, Jane\",\"Smith High, Annex\nBldg B\"" =
      ⟨["Doe, Jane", "Smith High, Annex\nBldg B"], []⟩ :=
  ⟨parseCSV_two_quoted_fields, scan_crlf, by decide⟩

/-! ## Claim C5 — synthesized fallback ids

Decimal-rendering facts and the last-underscore argument: the digits
after the final underscore of a synthesized roster id are exactly the
row index, so distinct rows give distinct ids. -/

theorem jsNumStrGo_mem (fuel n : Nat) (c : Char) (h : c ∈ jsNumStrGo fuel n) :
    ∃ k, k < 10 ∧ c = digitChar k := by
  induction fuel generalizing n with
  | zero => cases h
  | succ f ih =>
    by_cases hn : n < 10
    · simp only [jsNumStrGo, if_pos hn, List.mem_singleton] at h
      exact ⟨n, hn, h⟩
    · simp only [jsNumStrGo, if_neg hn, List.mem_append, List.mem_singleton] at h
      rcases h with h | h
      · exact ih _ h
      · exact ⟨n % 10, Nat.mod_lt _ (by omega), h⟩

theorem digitChar_ne_underscore (k : Nat) (h : k < 10) : digitChar k ≠ '_' := by
  interval_cases k <;> decide

theorem digitChar_inj (a b : Nat) (ha : a < 10) (hb : b < 10)
    (h : digitChar a = digitChar b) : a = b := by
  interval_cases a <;> interval_cases b <;> simp_all <;> cases h

theorem jsNumStrGo_ne_nil (fuel n : Nat) (h : n < fuel) : jsNumStrGo fuel n ≠ [] := by
  cases fuel with
  | zero => omega
  | succ f =>
    by_cases hn : n < 10
    · simp [jsNumStrGo, if_pos hn]
    · simp [jsNumStrGo, if_neg hn]

theorem jsNumStrGo_irrel (f1 : Nat) : ∀ (f2 n : Nat), n < f1 → n < f2 →
    jsNumStrGo f1 n = jsNumStrGo f2 n := by
  induction f1 with
  | zero => intro f2 n h1 _; omega
  | succ f ih =>
    intro f2 n h1 h2
    cases f2 with
    | zero => omega
    | succ g =>
      by_cases hn : n < 10
      · simp [jsNumStrGo, if_pos hn]
      · simp only [jsNumStrGo, if_neg hn]
        rw [ih g (n / 10) (by omega) (by omega)]

theorem jsNumStr_inj : ∀ (a b : Nat), jsNumStr a = jsNumStr b → a = b := by
  intro a
  induction a using Nat.strong_induction_on with
  | _ a ih =>
    intro b h
    have hl : jsNumStrGo (a + 1) a = jsNumStrGo (b + 1) b := by
      have := congrArg String.data h
      simpa [jsNumStr] using this
    by_cases ha : a < 10 <;> by_cases hb : b < 10
    · simp only [jsNumStrGo, if_pos ha, if_pos hb, List.cons.injEq] at hl
      exact digitChar_inj a b ha hb hl.1
    · exfalso
      simp only [jsNumStrGo, if_pos ha, if_neg hb] at hl
      have h2 := congrArg List.length hl
      simp only [List.length_append, List.length_cons, List.length_nil] at h2
      have h3 : jsNumStrGo b (b / 10) ≠ [] := jsNumStrGo_ne_nil _ _ (by omega)
      cases hx : jsNumStrGo b (b / 10) with
      | nil => exact h3 hx
      | cons y ys =>
        rw [hx] at h2
        simp at h2
    · exfalso
      simp only [jsNumStrGo, if_neg ha, if_pos hb] at hl
      have h2 := congrArg List.length hl
      simp only [List.length_append, List.length_cons, List.length_nil] at h2
      have h3 : jsNumStrGo a (a / 10) ≠ [] := jsNumStrGo_ne_nil _ _ (by omega)
      cases hx : jsNumStrGo a (a / 10) with
      | nil => exact h3 hx
      | cons y ys =>
        rw [hx] at h2
        simp at h2
    · simp only [jsNumStrGo, if_neg ha, if_neg hb] at hl
      have hlen : ([digitChar (a % 10)] : List Char).length = [digitChar (b % 10)].length := rfl
      obtain ⟨hpre, hsuf⟩ := List.append_inj' hl hlen
      have hm : a % 10 = b % 10 := by
        injection hsuf with h1 _
        exact digitChar_inj _ _ (Nat.mod_lt _ (by omega)) (Nat.mod_lt _ (by omega)) h1
      have hdiv : a / 10 = b / 10 := by
        apply ih (a / 10) (by omega)
        show jsNumStr (a / 10) = jsNumStr (b / 10)
        unfold jsNumStr
        congr 1
        rw [jsNumStrGo_irrel (a / 10 + 1) a (a / 10) (by omega) (by omega), hpre,
          jsNumStrGo_irrel b (b / 10 + 1) (b / 10) (by omega) (by omega)]
      omega


theorem takeWhile_all_append (p : Char → Bool) (ds : List Char) (x : Char) (rest : List Char)
    (hall : ∀ c ∈ ds, p c = true) (hx : p x = false) :
    (ds ++ x :: rest).takeWhile p = ds := by
  induction ds with
  | nil => simp [List.takeWhile_cons, hx]
  | cons d ds ih =>
    have hd : p d = true := hall d (List.mem_cons_self d ds)
    simp only [List.cons_append, List.takeWhile_cons, hd, if_true]
    rw [ih (fun c hc => hall c (List.mem_cons_of_mem _ hc))]

theorem synthRosterId_digits_key (l f : String) (r : Nat) :
    (synthRosterId l f r).data.reverse.takeWhile (fun c => decide (c ≠ '_')) =
      (jsNumStr r).data.reverse := by
  have hshape : (synthRosterId l f r).data.reverse =
      (jsNumStr r).data.reverse ++ '_' ::
        ((("ps_".data ++ (jsLower l).data) ++ ['_']) ++ (jsLower f).data).reverse := by
    have hdec : (synthRosterId l f r).data =
        ((((("ps_".data ++ (jsLower l).data) ++ ['_']) ++ (jsLower f).data) ++ ['_']) ++
          (jsNumStr r).data) := rfl
    rw [hdec]
    simp [List.reverse_append]
  rw [hshape]
  apply takeWhile_all_append
  · intro c hc
    rw [List.mem_reverse] at hc
    obtain ⟨k, hk, rfl⟩ := jsNumStrGo_mem _ _ c hc
    exact decide_eq_true (digitChar_ne_underscore k hk)
  · decide

theorem synthRosterId_row_inj (l1 f1 : String) (r1 : Nat) (l2 f2 : String) (r2 : Nat)
    (h : synthRosterId l1 f1 r1 = synthRosterId l2 f2 r2) : r1 = r2 := by
  have h2 := congrArg (fun s : String => s.data.reverse.takeWhile (fun c => decide (c ≠ '_'))) h
  simp only [synthRosterId_digits_key] at h2
  have h3 : (jsNumStr r1).data = (jsNumStr r2).data := by
    have := congrArg List.reverse h2
    simpa using this
  exact jsNumStr_inj r1 r2 (by
    show String.mk (jsNumStr r1).data = String.mk (jsNumStr r2).data
    rw [h3])


/-- Claim C5 (amended): roster rows with no extractable id get
`ps_<lastName>_<firstName>_<rowIndex>` (lowercased), and two such
synthesized ids from different rows always differ within one parse pass;
CSV-export rows with no extractable id get `ps_<lastName>_<firstName>`
with no row index (so two id-less rows sharing a name collide);
ids stay deterministic across parses of unchanged input because the
parsers are pure functions of their input. -/
theorem synthesized_id_spec :
    (∀ (l1 f1 : String) (r1 : Nat) (l2 f2 : String) (r2 : Nat),
      synthRosterId l1 f1 r1 = synthRosterId l2 f2 r2 → r1 = r2) ∧
    (∀ (r : Nat) (rec : StudentRecord), jsTruthyO rec.sourcedId = false →
      (withRosterFallbackId r rec).sourcedId =
        some (synthRosterId (rec.lastName.getD "") (rec.firstName.getD "") r)) ∧
    (∀ (hm : List (Nat × RField)) (r1 r2 : Nat) (c1 c2 : List RCell)
       (rec1 rec2 : StudentRecord),
      rosterRowRecord hm r1 c1 = some rec1 → rosterRowRecord hm r2 c2 = some rec2 →
      jsTruthyO (rosterRowCore hm c1).1.sourcedId = false →
      jsTruthyO (rosterRowCore hm c2).1.sourcedId = false →
      r1 ≠ r2 → rec1.sourcedId ≠ rec2.sourcedId) ∧
    (∀ rec : StudentRecord, jsTruthyO rec.sourcedId = false →
      (withCsvFallbackId rec).sourcedId =
        some ("ps_" ++ jsLower (rec.lastName.getD "") ++ "_" ++ jsLower (rec.firstName.getD ""))) := by
  have hfall : ∀ (r : Nat) (rec : StudentRecord), jsTruthyO rec.sourcedId = false →
      (withRosterFallbackId r rec).sourcedId =
        some (synthRosterId (rec.lastName.getD "") (rec.firstName.getD "") r) := by
    intro r rec h
    simp [withRosterFallbackId, h]
  refine ⟨synthRosterId_row_inj, hfall, ?_, ?_⟩
  · intro hm r1 r2 c1 c2 rec1 rec2 h1 h2 ht1 ht2 hne
    rw [rosterRowRecord] at h1 h2
    dsimp only at h1 h2
    split_ifs at h1 h2 with ha1 hb1 ha2 hb2
    injection h1 with h1
    injection h2 with h2
    subst h1
    subst h2
    rw [hfall r1 _ ht1, hfall r2 _ ht2]
    intro heq
    injection heq with heq
    exact hne (synthRosterId_row_inj _ _ _ _ _ _ heq)
  · intro rec h
    simp [withCsvFallbackId, h]

/-- Witness for C5 at a concrete id-less roster record. -/
theorem synthesized_id_spec_witness :
    jsTruthyO (({ lastName := some "Poe", firstName := some "Edgar" } :
      StudentRecord)).sourcedId = false ∧
    (withRosterFallbackId 2
        ({ lastName := some "Poe", firstName := some "Edgar" } : StudentRecord)).sourcedId =
      some (synthRosterId "Poe" "Edgar" 2) :=
  ⟨by decide, synthesized_id_spec.2.1 2 _ (by decide)⟩

/-- Counterexample to C5 as stated: two id-less CSV rows with the same
name synthesize the *same* id `ps_doe_jane` — with no `_<rowIndex>`
suffix — so synthesized ids are not pairwise distinct within one parse
pass of `parseExportCSV`. -/
theorem parseExportCSV_duplicate_synth_id_counterexample :
    (parseExportCSV "first_name,last_name\nJane,Doe\nJane,Doe").length = 2 ∧
    ((parseExportCSV "first_name,last_name\nJane,Doe\nJane,Doe").getD 0 {}).sourcedId =
      some "ps_doe_jane" ∧
    ((parseExportCSV "first_name,last_name\nJane,Doe\nJane,Doe").getD 1 {}).sourcedId =
      some "ps_doe_jane" := by
  refine ⟨by decide, by decide, by decide⟩

/-! ## Claim C6 — the byte-order-mark strip (code bug) -/

/-- Claim C6 (code bug): `parseExportCSV`'s BOM strip
`replace(/^\xEF\xBB\xBF/, '')` matches the three Latin-1 characters of
the UTF-8 BOM byte sequence, not the single code point U+FEFF that a
decoded text actually starts with, so a real BOM is never stripped
(first conjunct).  It then usually survives only into the trimmed first
header, but before a leading blank line it fabricates a spurious first
row: the same CSV parses to one record without the BOM and to no records
with it, contradicting the claim that a BOM-prefixed text parses
identically. -/
theorem parseExportCSV_bom_divergence :
    stripBOMRegex "\uFEFF\nfirst\nJane" = "\uFEFF\nfirst\nJane" ∧
    parseExportCSV "\nfirst\nJane" =
      [{ sourcedId := some "ps__jane", firstName := some "Jane" }] ∧
    parseExportCSV "\uFEFF\nfirst\nJane" = [] := by
  refine ⟨by decide, by decide, by decide⟩

/-! ## Claim C7 — crawl failure isolation -/

theorem crawlGo_filterMap (net : String → ProfileFetch) (links : List StudentLink) :
    crawlGo net links =
      links.filterMap (fun l => fetchAndScrapeProfile net l.url l.sourcedId) := by
  induction links with
  | nil => rfl
  | cons l rest ih =>
    rw [crawlGo, List.filterMap_cons]
    cases hf : fetchAndScrapeProfile net l.url l.sourcedId with
    | none => exact ih
    | some rec => rw [ih]

theorem crawlGo_append (net : String → ProfileFetch) (l1 l2 : List StudentLink) :
    crawlGo net (l1 ++ l2) = crawlGo net l1 ++ crawlGo net l2 := by
  simp [crawlGo_filterMap, List.filterMap_append]

theorem deepCrawl_eq_crawlGo (net : String → ProfileFetch) (links : List StudentLink) :
    deepCrawl net links = crawlGo net links := by
  cases links with
  | nil => rfl
  | cons l rest => rfl

/-- Claim C7: a failed item fetch (non-2xx, thrown error, or timeout)
is skipped: the crawl of a link list with a failing item in the middle
is exactly the crawl of the links before it followed by the crawl of the
links after it, and in general `deepCrawl` returns precisely the scraped
records of the items whose fetch succeeded, in order; the embedded
functions are total, so no item failure raises to the caller. -/
theorem deepCrawl_failure_isolation (net : String → ProfileFetch) (bad : StudentLink)
    (hfail : fetchAndScrapeProfile net bad.url bad.sourcedId = none) :
    (∀ l1 l2 : List StudentLink,
      deepCrawl net (l1 ++ bad :: l2) = deepCrawl net l1 ++ deepCrawl net l2) ∧
    (∀ links : List StudentLink,
      deepCrawl net links =
        links.filterMap (fun l => fetchAndScrapeProfile net l.url l.sourcedId)) := by
  constructor
  · intro l1 l2
    rw [deepCrawl_eq_crawlGo, deepCrawl_eq_crawlGo, deepCrawl_eq_crawlGo, crawlGo_append,
      crawlGo, hfail]
  · intro links
    rw [deepCrawl_eq_crawlGo, crawlGo_filterMap]

/-- Fixture network for the C7 witness: one failing URL. -/
def crawlWitnessNet : String → ProfileFetch :=
  fun url => if url = "https://sis/bad" then .failed "timeout" else .page true {}

/-- Witness for C7 at a concrete three-link crawl whose middle fetch
fails. -/
theorem deepCrawl_failure_isolation_witness :
    fetchAndScrapeProfile crawlWitnessNet "https://sis/bad" "2" = none ∧
    deepCrawl crawlWitnessNet
        [⟨"1", "a", "https://sis/u1"⟩, ⟨"2", "b", "https://sis/bad"⟩,
         ⟨"3", "c", "https://sis/u3"⟩] =
      deepCrawl crawlWitnessNet [⟨"1", "a", "https://sis/u1"⟩] ++
        deepCrawl crawlWitnessNet [⟨"3", "c", "https://sis/u3"⟩] :=
  ⟨rfl, (deepCrawl_failure_isolation crawlWitnessNet ⟨"2", "b", "https://sis/bad"⟩ rfl).1
    [⟨"1", "a", "https://sis/u1"⟩] [⟨"3", "c", "https://sis/u3"⟩]⟩


/-! ## Claim C9 — first-match-wins during profile scraping -/

theorem setD_fields_ne (f g : DField) (v : String) (r : DeepRecord) (h : f ≠ g) :
    (setD g v r).fields f = r.fields f := by
  simp [setD, h]

theorem processLabelValue_preserves (f : DField) (label value : String) (r : DeepRecord)
    (h : jsTruthyO (r.fields f) = true) :
    (processLabelValue label value r).fields f = r.fields f := by
  rw [processLabelValue]
  dsimp only
  split_ifs with h1 h2
  · rfl
  · rfl
  · cases hfind : profileFieldPatterns.find? (fun e => fullMatch e.2 (cleanLabel label)) with
    | none => rfl
    | some e =>
      dsimp only
      by_cases ht : jsTruthyO (r.fields e.1) = true
      · rw [if_pos ht]
      · rw [if_neg ht]
        have hne : f ≠ e.1 := by
          intro hcon
          rw [← hcon] at ht
          exact ht h
        exact setD_fields_ne f e.1 value r hne

theorem parseScheduleSection_fields (rows : Option (List (String × String))) (r : DeepRecord) :
    (parseScheduleSection rows r).fields = r.fields := by
  cases rows with
  | none => rfl
  | some rs =>
    rw [parseScheduleSection]
    induction rs generalizing r with
    | nil => rfl
    | cons p rest ih =>
      rw [List.foldl_cons, ih]
      dsimp only
      split_ifs <;> rfl

theorem foldl_preserves_field {α : Type} (f : DField) (step : DeepRecord → α → DeepRecord)
    (hstep : ∀ (r : DeepRecord) (a : α), jsTruthyO (r.fields f) = true →
      (step r a).fields f = r.fields f) :
    ∀ (l : List α) (r : DeepRecord), jsTruthyO (r.fields f) = true →
      ((l.foldl step r).fields f = r.fields f) := by
  intro l
  induction l with
  | nil => intro r _; rfl
  | cons a rest ih =>
    intro r h
    rw [List.foldl_cons]
    rw [ih (step r a) (by rw [hstep r a h]; exact h), hstep r a h]

theorem scrapeStrategies_preserves (f : DField) (doc : ProfileDoc) (r : DeepRecord)
    (h : jsTruthyO (r.fields f) = true) :
    (scrapeStrategies doc r).fields f = r.fields f := by
  rw [scrapeStrategies]
  have hpair : ∀ (r : DeepRecord) (p : String × String), jsTruthyO (r.fields f) = true →
      (processLabelValue (jsTrim p.1) (jsTrim p.2) r).fields f = r.fields f :=
    fun r p h => processLabelValue_preserves f _ _ r h
  have hlab : ∀ (r : DeepRecord) (ev : LabelEvent), jsTruthyO (r.fields f) = true →
      ((fun r (ev : LabelEvent) =>
        let lt := jsTrim ev.labelText
        let ra :=
          match ev.sibling with
          | some v =>
            let value := jsTrim v
            if value ≠ "" ∧ value.length < 500 then processLabelValue lt value r else r
          | none => r
        match ev.forValue with
        | some v => if v ≠ "" then processLabelValue lt v ra else ra
        | none => ra) r ev).fields f = r.fields f := by
    intro r ev h
    dsimp only
    have hra : ∀ ra : DeepRecord, ra.fields f = r.fields f →
        (match ev.forValue with
         | some v => if v ≠ "" then processLabelValue (jsTrim ev.labelText) v ra else ra
         | none => ra).fields f = r.fields f := by
      intro ra hra
      cases ev.forValue with
      | none => exact hra
      | some v =>
        dsimp only
        split_ifs with hv
        · rw [processLabelValue_preserves f _ _ ra (by rw [hra]; exact h), hra]
        · exact hra
    cases hs : ev.sibling with
    | none => exact hra r rfl
    | some v =>
      dsimp only
      split_ifs with hv
      · exact hra _ (processLabelValue_preserves f _ _ r h)
      · exact hra r rfl
  have hhead : ∀ (r : DeepRecord) (hv : HeadingEvent), jsTruthyO (r.fields f) = true →
      ((fun r (hv : HeadingEvent) =>
        if containsAny ["schedule", "classes", "courses", "period"] (jsTrim hv.text) then
          parseScheduleSection hv.tableRows r
        else r) r hv).fields f = r.fields f := by
    intro r hv _
    dsimp only
    split_ifs
    · rw [parseScheduleSection_fields]
    · rfl
  have hinp : ∀ (r : DeepRecord) (ev : InputEvent), jsTruthyO (r.fields f) = true →
      ((fun r (ev : InputEvent) =>
        if ev.value = "" then r
        else
          match ev.forLabel with
          | some l => processLabelValue (jsTrim l) ev.value r
          | none =>
            match ev.parentLabel with
            | some l => processLabelValue (jsTrim l) ev.value r
            | none => r) r ev).fields f = r.fields f := by
    intro r ev h
    dsimp only
    split_ifs
    · rfl
    · cases ev.forLabel with
      | some l => exact processLabelValue_preserves f _ _ r h
      | none =>
        cases ev.parentLabel with
        | some l => exact processLabelValue_preserves f _ _ r h
        | none => rfl
  have h1 := foldl_preserves_field f _ hpair doc.tablePairs r h
  have h2 := foldl_preserves_field f _ hpair doc.dlPairs _ (by rw [h1]; exact h)
  have h3 := foldl_preserves_field f _ hlab doc.labelEvents _ (by rw [h2, h1]; exact h)
  have h4 := foldl_preserves_field f _ hhead doc.headingEvents _ (by rw [h3, h2, h1]; exact h)
  have h5 := foldl_preserves_field f _ hinp doc.inputEvents _ (by rw [h4, h3, h2, h1]; exact h)
  rw [h5, h4, h3, h2, h1]

theorem applyTitleName_fields_other (f : DField) (t : Option String) (r : DeepRecord)
    (hf : f ≠ DField.firstName) (hl : f ≠ DField.lastName) :
    (applyTitleName t r).fields f = r.fields f := by
  cases t with
  | none => rfl
  | some txt =>
    rw [applyTitleName]
    dsimp only
    split_ifs <;> rw [setD_fields_ne _ _ _ _ hl, setD_fields_ne _ _ _ _ hf]


/-- Claim C9 (amended to the named scalar fields): once any strategy has
written a non-empty value into a scalar attribute of the record, no
later `processLabelValue` call and no later strategy of the scrape
pipeline (including the schedule strategy and the title-name fallback)
changes it; the open `extra` and `schedule` dictionaries instead take
the last written value per key. -/
theorem scrape_first_match_wins (f : DField) (r : DeepRecord)
    (h : jsTruthyO (r.fields f) = true) :
    (∀ label value : String, (processLabelValue label value r).fields f = r.fields f) ∧
    (∀ doc : ProfileDoc, (scrapeFrom doc r).fields f = r.fields f) ∧
    (∀ (doc : ProfileDoc) (sid : String), scrapeProfilePage doc sid = scrapeFrom doc (initDeep sid)) := by
  refine ⟨fun label value => processLabelValue_preserves f label value r h, ?_, fun _ _ => rfl⟩
  intro doc
  rw [scrapeFrom]
  have h5 := scrapeStrategies_preserves f doc r h
  split_ifs with hguard
  · by_cases hf : f = DField.firstName
    · exfalso
      subst hf
      rw [h5] at hguard
      rw [h] at hguard
      simp at hguard
    · by_cases hl : f = DField.lastName
      · exfalso
        subst hl
        rw [h5] at hguard
        rw [h] at hguard
        simp at hguard
      · rw [applyTitleName_fields_other f _ _ hf hl, h5]
  · exact h5

/-- Fixture record for the C9 witness: grade level already populated. -/
def scrapeWitnessRec : DeepRecord := setD .gradeLevel "10" (initDeep "7")

/-- Fixture document for the C9 witness: later strategies offer a
different grade. -/
def scrapeWitnessDoc : ProfileDoc :=
  { tablePairs := [("Grade", "11")], dlPairs := [("Grade:", "12")],
    titleName := some "Doe, Jane" }

/-- Witness for C9: a populated grade level survives a document whose
later strategies offer different grades. -/
theorem scrape_first_match_wins_witness :
    jsTruthyO (scrapeWitnessRec.fields .gradeLevel) = true ∧
    (scrapeFrom scrapeWitnessDoc scrapeWitnessRec).fields .gradeLevel =
      scrapeWitnessRec.fields .gradeLevel :=
  ⟨by decide, (scrape_first_match_wins .gradeLevel scrapeWitnessRec (by decide)).2.1
    scrapeWitnessDoc⟩

/-- Fixture documents for the C9 counterexample: the same unrecognized
label once, and then twice with different values. -/
def extraOnceDoc : ProfileDoc := { tablePairs := [("Nickname", "Bob")] }

def extraTwiceDoc : ProfileDoc :=
  { tablePairs := [("Nickname", "Bob")], dlPairs := [("Nickname", "Rob")] }

/-- Counterexample to C9 as stated for the open dictionaries: the same
unrecognized label seen by strategy 1 and then by strategy 2 leaves the
*later* value in `extra`, so the non-empty value written first is
overwritten by a later strategy. -/
theorem scrape_extra_overwrite_counterexample :
    jsGet (scrapeProfilePage extraOnceDoc "7").extra "Nickname" = some "Bob" ∧
    jsGet (scrapeProfilePage extraTwiceDoc "7").extra "Nickname" = some "Rob" ∧
    ("Rob" : String) ≠ "Bob" := by
  refine ⟨by decide, by decide, by decide⟩


/-! ## Claim C8 — the combined-name splitter -/

theorem splitCharList_ne_nil (sep : Char) (cs : List Char) : splitCharList sep cs ≠ [] := by
  cases cs with
  | nil => simp [splitCharList]
  | cons c rest =>
    rw [splitCharList]
    cases splitCharList sep rest with
    | nil => simp
    | cons g gs => split_ifs <;> simp

theorem splitCharList_head (sep : Char) (cs : List Char) :
    (splitCharList sep cs).getD 0 [] = cs.takeWhile (fun c => decide (c ≠ sep)) := by
  induction cs with
  | nil => rfl
  | cons c rest ih =>
    rw [splitCharList]
    cases hsp : splitCharList sep rest with
    | nil => exact absurd hsp (splitCharList_ne_nil sep rest)
    | cons g gs =>
      rw [hsp] at ih
      by_cases hc : c = sep
      · subst hc
        simp [List.takeWhile_cons]
      · simp only [if_neg hc, List.getD_cons_zero, List.takeWhile_cons]
        have hd : decide (c ≠ sep) = true := decide_eq_true hc
        rw [hd]
        simp only [if_true]
        rw [← ih]
        rfl

theorem splitCharList_getD1 (sep : Char) (cs : List Char) (h : sep ∈ cs) :
    (splitCharList sep cs).getD 1 [] =
      ((cs.dropWhile (fun c => decide (c ≠ sep))).drop 1).takeWhile
        (fun c => decide (c ≠ sep)) := by
  induction cs with
  | nil => cases h
  | cons c rest ih =>
    rw [splitCharList]
    by_cases hc : c = sep
    · subst hc
      have hd : (fun x => decide (x ≠ c)) c = false := by simp
      cases hsp : splitCharList c rest with
      | nil => exact absurd hsp (splitCharList_ne_nil c rest)
      | cons g gs =>
        simp only [if_pos rfl, List.getD_cons_succ, List.getD_cons_zero, List.dropWhile_cons,
          hd, Bool.false_eq_true, if_false, List.drop_succ_cons, List.drop_zero]
        have := splitCharList_head c rest
        rw [hsp] at this
        exact this
    · have hmem : sep ∈ rest := by
        rcases List.mem_cons.mp h with h1 | h1
        · exact absurd h1.symm hc
        · exact h1
      cases hsp : splitCharList sep rest with
      | nil => exact absurd hsp (splitCharList_ne_nil sep rest)
      | cons g gs =>
        rw [hsp] at ih
        have hd : (fun x => decide (x ≠ sep)) c = true := decide_eq_true hc
        simp only [if_neg hc, List.getD_cons_succ, List.dropWhile_cons, hd, if_true]
        exact ih hmem

theorem map_getD_str (f : String → String) (hf : f "" = "") (l : List String) (i : Nat) :
    (l.map f).getD i "" = f (l.getD i "") := by
  induction l generalizing i with
  | nil => simp [hf]
  | cons x rest ih =>
    cases i with
    | zero => rfl
    | succ j => exact ih j

theorem splitWsGo_ne_nil (fuel : Nat) (cs : List Char) : splitWsGo fuel cs ≠ [] := by
  cases fuel with
  | zero => simp [splitWsGo]
  | succ f =>
    rw [splitWsGo]
    cases (cs.dropWhile (fun x => decide (jsWhitespace x = false))) with
    | nil => simp
    | cons w tail => simp

theorem map_mk_getD (l : List (List Char)) (i : Nat) :
    (l.map String.mk).getD i "" = String.mk (l.getD i []) := by
  induction l generalizing i with
  | nil => rfl
  | cons x rest ih =>
    cases i with
    | zero => rfl
    | succ j => exact ih j

theorem jsSplitWs_short (t : String) (h : (jsSplitWs t).length ≤ 1) : jsSplitWs t = [t] := by
  obtain ⟨l⟩ := t
  rw [jsSplitWs] at h ⊢
  cases l with
  | nil => rfl
  | cons c rest =>
    rw [show (String.mk (c :: rest)).data = c :: rest from rfl,
      show (c :: rest).length = rest.length + 1 from rfl] at h ⊢
    rw [splitWsGo] at h ⊢
    cases hrest : (c :: rest).dropWhile (fun x => decide (jsWhitespace x = false)) with
    | nil =>
      simp only [hrest, List.map_cons, List.map_nil]
      have htk : (c :: rest).takeWhile (fun x => decide (jsWhitespace x = false)) = c :: rest := by
        have hsplit := List.takeWhile_append_dropWhile
          (p := fun x => decide (jsWhitespace x = false)) (l := c :: rest)
        rw [hrest, List.append_nil] at hsplit
        exact hsplit
      rw [htk]
    | cons w tail =>
      simp only [hrest, List.map_cons, List.length_cons] at h
      have hne := splitWsGo_ne_nil rest.length (tail.dropWhile jsWhitespace)
      cases hx : splitWsGo rest.length (tail.dropWhile jsWhitespace) with
      | nil => exact absurd hx hne
      | cons y ys =>
        rw [hx] at h
        simp at h

/-- Modelled from claim C8's words: with a comma, the part left of the
(first) comma is the surname and the whole part right of it the given
name (both trimmed); otherwise the first whitespace-delimited token is
the given name and the verbatim remainder of the text (after the
delimiting whitespace run) the surname.  Returns
`(firstName, lastName)`. -/
def parseNameClaimed (raw : String) : String × String :=
  let text := jsTrim raw
  if text.data.contains ',' then
    (jsTrim (String.mk ((text.data.dropWhile (fun c => decide (c ≠ ','))).drop 1)),
     jsTrim (String.mk (text.data.takeWhile (fun c => decide (c ≠ ',')))))
  else
    (String.mk (text.data.takeWhile (fun c => jsWhitespace c = false)),
     String.mk ((text.data.dropWhile (fun c => jsWhitespace c = false)).dropWhile jsWhitespace))

/-- The C8 splitter as amended: with a comma, the given name is only the
part between the first and second commas (text after a second comma is
dropped), and without one the surname is the remaining
whitespace-delimited tokens joined by single spaces (whitespace runs
collapsed).  Returns `(firstName, lastName)`. -/
def parseNameAmended (raw : String) : String × String :=
  let text := jsTrim raw
  if text.data.contains ',' then
    (jsTrim (String.mk (((text.data.dropWhile (fun c => decide (c ≠ ','))).drop 1).takeWhile
        (fun c => decide (c ≠ ',')))),
     jsTrim (String.mk (text.data.takeWhile (fun c => decide (c ≠ ',')))))
  else
    let parts := jsSplitWs text
    (parts.getD 0 "", String.intercalate " " (parts.drop 1))

/-- Claim C8 (amended): `parseName` agrees everywhere with the amended
splitter — on a comma the surname is the trimmed text left of the first
comma and the given name only the trimmed text between the first and
second commas; without a comma the first whitespace-delimited token is
the given name and the remaining tokens, joined by single spaces, the
surname. -/
theorem parseName_eq_amended (raw : String) : parseName raw = parseNameAmended raw := by
  rw [parseName, parseNameAmended]
  by_cases hc : (jsTrim raw).data.contains ','
  · rw [if_pos hc, if_pos hc]
    have hmem : ',' ∈ (jsTrim raw).data := by
      simpa using hc
    have h0 : ((jsSplitChar ',' (jsTrim raw)).map jsTrim).getD 0 "" =
        jsTrim (String.mk ((jsTrim raw).data.takeWhile (fun c => decide (c ≠ ',')))) := by
      rw [map_getD_str jsTrim rfl, jsSplitChar, map_mk_getD, splitCharList_head]
    have h1 : ((jsSplitChar ',' (jsTrim raw)).map jsTrim).getD 1 "" =
        jsTrim (String.mk ((((jsTrim raw).data.dropWhile
            (fun c => decide (c ≠ ','))).drop 1).takeWhile (fun c => decide (c ≠ ',')))) := by
      rw [map_getD_str jsTrim rfl, jsSplitChar, map_mk_getD, splitCharList_getD1 ',' _ hmem]
    dsimp only
    rw [h0, h1]
  · rw [if_neg hc, if_neg hc]
    dsimp only
    by_cases hlen : 2 ≤ (jsSplitWs (jsTrim raw)).length
    · rw [if_pos hlen]
    · rw [if_neg hlen]
      have hshort := jsSplitWs_short (jsTrim raw) (by omega)
      rw [hshort]
      rfl

/-- Counterexample to C8 as stated: on `"Smith, John, Jr."` the code
returns the given name `"John"`, not the whole right-of-comma part
`"John, Jr."`; and on `"John  Paul  Smith"` it collapses the double
space of the remainder, returning `"Paul Smith"` instead of the verbatim
remainder `"Paul  Smith"`. -/
theorem parseName_claimed_counterexample :
    parseName "Smith, John, Jr." = ("John", "Smith") ∧
    parseNameClaimed "Smith, John, Jr." = ("John, Jr.", "Smith") ∧
    parseName "John  Paul  Smith" = ("John", "Paul Smith") ∧
    parseNameClaimed "John  Paul  Smith" = ("John", "Paul  Smith") ∧
    parseName "Smith, John, Jr." ≠ parseNameClaimed "Smith, John, Jr." ∧
    parseName "John  Paul  Smith" ≠ parseNameClaimed "John  Paul  Smith" := by
  refine ⟨by decide, by decide, by decide, by decide, by decide, by decide⟩


/-! ## Claim C10 — the in-memory session token cache -/

/-- Claim C10 (amended to a non-empty cached token): while a truthy
(non-empty) token is cached, `getToken` returns it unchanged for every
passphrase — wrong, empty or absent — without touching the decrypt
oracle or the stored blob; after `clearSession` the cache is empty and
`getToken` again requires a truthy passphrase that decrypts the stored
blob (caching the result), returning null when decryption fails or no
passphrase is given.  An empty cached token is falsy in JS, so it does
not count as a session (see the counterexample). -/
theorem getToken_session_cache (st : VaultState) (h : jsTruthyO st.session = true) :
    (∀ (d : String → String → Option String) (p : Option String),
      getToken d p st = (st.session, st)) ∧
    (clearSession st).session = none ∧
    (∀ (d : String → String → Option String) (q blob tok : String),
      q ≠ "" → st.stored = some blob → d blob q = some tok →
      getToken d (some q) (clearSession st) = (some tok, ⟨some tok, st.stored⟩)) ∧
    (∀ (d : String → String → Option String) (q blob : String),
      st.stored = some blob → d blob q = none →
      (getToken d (some q) (clearSession st)).1 = none) ∧
    (∀ d : String → String → Option String,
      getToken d none (clearSession st) = (none, clearSession st)) := by
  have hcl : jsTruthyO (clearSession st).session = false := by
    simp [clearSession, jsTruthyO]
  refine ⟨?_, rfl, ?_, ?_, ?_⟩
  · intro d p
    rw [getToken, if_pos h]
  · intro d q blob tok hq hst hd
    rw [getToken, if_neg (by simp [hcl]), if_neg (by simp [jsTruthyO, hq]),
      show (clearSession st).stored = st.stored from rfl, hst]
    dsimp only
    rw [show (some q).getD "" = q from rfl, hd]
  · intro d q blob hst hd
    by_cases hq : q = ""
    · subst hq
      rw [getToken, if_neg (by simp [hcl]), if_pos (by simp [jsTruthyO])]
    · rw [getToken, if_neg (by simp [hcl]), if_neg (by simp [jsTruthyO, hq]),
        show (clearSession st).stored = st.stored from rfl, hst]
      dsimp only
      rw [show (some q).getD "" = q from rfl, hd]
  · intro d
    rw [getToken, if_neg (by simp [hcl]), if_pos (by simp [jsTruthyO])]

/-- Witness for C10 at a concrete cached session. -/
theorem getToken_session_cache_witness :
    jsTruthyO (VaultState.mk (some "T") (some "blob")).session = true ∧
    (∀ (d : String → String → Option String) (p : Option String),
      getToken d p ⟨some "T", some "blob"⟩ = (some "T", ⟨some "T", some "blob"⟩)) :=
  ⟨by decide, fun d p => (getToken_session_cache ⟨some "T", some "blob"⟩ (by decide)).1 d p⟩

/-- Fixture crypto oracle for the C10 counterexample: decryption
succeeds only for the passphrase that encrypted the blob (recovering the
empty token). -/
def vaultWitnessDecrypt : String → String → Option String :=
  fun blob q => if blob = "blob" ∧ q = "pw" then some "" else none

/-- Fixture encryptor matching `vaultWitnessDecrypt`. -/
def vaultWitnessEncrypt : String → String → String := fun _ _ => "blob"

/-- Counterexample to C10 as stated: `setToken` with the empty string
caches `""`, which is falsy, so a later `getToken` with a wrong
passphrase returns null rather than the cached token. -/
theorem getToken_empty_token_counterexample :
    (setToken vaultWitnessEncrypt "" "pw" ⟨none, none⟩).session = some "" ∧
    getToken vaultWitnessDecrypt (some "wrong")
        (setToken vaultWitnessEncrypt "" "pw" ⟨none, none⟩) =
      (none, setToken vaultWitnessEncrypt "" "pw" ⟨none, none⟩) ∧
    (none : Option String) ≠ some "" := by
  refine ⟨by decide, by decide, by decide⟩

end SchoolSync
